import Mathlib

/-!
Verification of the IronRDP negotiation codec (ironrdp-devolutions-gateway)
and input-state translator (ironrdp-input).

Part 1 embeds the RDCleanPath negotiation message type, its construction
recipes and the DER wire codec. The message type, the constructors, `detect`,
`decode` and `to_der` are translated from
src/ironrdp-devolutions-gateway/src/lib.rs. The DER encoder and decoder
themselves live in the external `der` crate, which is not part of the
sources; they are modelled from the specification of the wire format
(spec section 6) and validated below against the byte-exact test vectors
recorded in the source file.

Part 2 embeds the input-state database from src/ironrdp-input/src/lib.rs.
-/

/-- A byte string: each element is a byte value (kept as `Nat`). -/
abbrev Bytes := List Nat

/-- Value of a big-endian base-256 digit string. -/
def beVal (l : Bytes) : Nat := l.foldl (fun a d => a * 256 + d) 0

/-- Fuel-bounded big-endian digit extraction; structural in the fuel so that
the kernel can evaluate it. -/
def natBEAux : Nat → Nat → Bytes
  | _, 0 => []
  | 0, _ + 1 => []
  | fuel + 1, n + 1 => natBEAux fuel ((n + 1) / 256) ++ [(n + 1) % 256]

/-- Minimal big-endian base-256 digits of a natural number (`[]` for 0). -/
def natBE (n : Nat) : Bytes := natBEAux n n

theorem natBEAux_fuel_irrel (fuel₁ : Nat) : ∀ fuel₂ n, n ≤ fuel₁ → n ≤ fuel₂ →
    natBEAux fuel₁ n = natBEAux fuel₂ n := by
  induction fuel₁ with
  | zero =>
    intro fuel₂ n h1 _
    interval_cases n
    cases fuel₂ <;> rfl
  | succ f ih =>
    intro fuel₂ n h1 h2
    cases n with
    | zero => cases fuel₂ <;> rfl
    | succ m =>
      obtain ⟨f₂, rfl⟩ : ∃ g, fuel₂ = g + 1 := by
        cases fuel₂ with
        | zero => omega
        | succ g => exact ⟨g, rfl⟩
      show natBEAux f ((m + 1) / 256) ++ [(m + 1) % 256] =
        natBEAux f₂ ((m + 1) / 256) ++ [(m + 1) % 256]
      have hdiv : (m + 1) / 256 < m + 1 := Nat.div_lt_self (by omega) (by omega)
      rw [ih f₂ ((m + 1) / 256) (by omega) (by omega)]

theorem natBE_zero : natBE 0 = [] := rfl

theorem natBE_unfold (n : Nat) (h : n ≠ 0) :
    natBE n = natBE (n / 256) ++ [n % 256] := by
  obtain ⟨m, rfl⟩ : ∃ m, n = m + 1 := by
    cases n with
    | zero => omega
    | succ m => exact ⟨m, rfl⟩
  show natBEAux (m + 1) (m + 1) = natBEAux ((m + 1) / 256) ((m + 1) / 256) ++ [(m + 1) % 256]
  have hdiv : (m + 1) / 256 < m + 1 := Nat.div_lt_self (by omega) (by omega)
  show natBEAux m ((m + 1) / 256) ++ [(m + 1) % 256] = _
  rw [natBEAux_fuel_irrel m ((m + 1) / 256) ((m + 1) / 256) (by omega) le_rfl]

theorem beVal_append_singleton (l : Bytes) (d : Nat) :
    beVal (l ++ [d]) = beVal l * 256 + d := by
  simp [beVal, List.foldl_append]

theorem beVal_natBE (n : Nat) : beVal (natBE n) = n := by
  induction n using Nat.strong_induction_on with
  | _ n ih =>
    by_cases h : n = 0
    · simp [h, natBE_zero, beVal]
    · rw [natBE_unfold n h, beVal_append_singleton,
        ih (n / 256) (Nat.div_lt_self (Nat.pos_of_ne_zero h) (by omega))]
      omega

theorem natBE_eq_nil_iff (n : Nat) : natBE n = [] ↔ n = 0 := by
  constructor
  · intro h
    by_contra hn
    rw [natBE_unfold n hn] at h
    exact absurd h (by simp)
  · intro h; rw [h, natBE_zero]

theorem natBE_head_ne_zero (n d : Nat) (ds : Bytes) (h : natBE n = d :: ds) :
    d ≠ 0 := by
  induction n using Nat.strong_induction_on generalizing d ds with
  | _ n ih =>
    by_cases hn : n = 0
    · rw [hn, natBE_zero] at h; simp at h
    · rw [natBE_unfold n hn] at h
      by_cases hq : n / 256 = 0
      · rw [(natBE_eq_nil_iff _).mpr hq] at h
        simp at h
        have : n < 256 := by omega
        have : n % 256 = n := Nat.mod_eq_of_lt this
        omega
      · obtain ⟨d', ds', hds⟩ : ∃ d' ds', natBE (n / 256) = d' :: ds' := by
          cases hnb : natBE (n / 256) with
          | nil => exact absurd ((natBE_eq_nil_iff _).mp hnb) hq
          | cons a b => exact ⟨a, b, rfl⟩
        rw [hds] at h
        simp at h
        exact h.1 ▸ ih (n / 256)
          (Nat.div_lt_self (Nat.pos_of_ne_zero hn) (by omega)) d' ds' hds

theorem natBE_length_pos (n : Nat) (h : n ≠ 0) : 0 < (natBE n).length := by
  cases hnb : natBE n with
  | nil => exact absurd ((natBE_eq_nil_iff _).mp hnb) h
  | cons a b => simp

/-- DER definite-length encoding: short form below 128, else long form with a
count byte followed by the minimal big-endian digits. -/
def encodeLen (n : Nat) : Bytes :=
  if n < 128 then [n] else (128 + (natBE n).length) :: natBE n

/-- A DER tag-length-value unit. -/
def tlv (tag : Nat) (content : Bytes) : Bytes :=
  tag :: (encodeLen content.length ++ content)

/-- A context-specific EXPLICIT wrapper with the given tag number. -/
def ctxTLV (n : Nat) (content : Bytes) : Bytes := tlv (160 + n) content

/-- Errors of the modelled DER decoder.

Modelled from the spec: the underlying decoder distinguishes a truncated
buffer (Incomplete, carrying the total length it expects and the length it
saw) from every other failure, which the spec groups as fatal/malformed. -/
inductive DerError where
  | incomplete (expected_len : Nat) (actual_len : Nat)
  | malformed
deriving DecidableEq

/-- Result type mirroring der::Result. -/
inductive DerResult (α : Type) where
  | ok (val : α)
  | error (e : DerError)
deriving DecidableEq

/-- Modelled from the spec: reading a DER header (tag byte plus definite
length) from the front of a buffer, reporting Incomplete when the buffer
ends inside the header. Returns (tag, content length, bytes after header). -/
def parseHeader (b : Bytes) : DerResult (Nat × Nat × Bytes) :=
  match b with
  | [] => .error (.incomplete 1 0)
  | [_] => .error (.incomplete 2 1)
  | t :: l0 :: r2 =>
    if l0 < 128 then .ok (t, l0, r2)
    else if l0 = 128 then .error .malformed
    else
      let k := l0 - 128
      if r2.length < k then .error (.incomplete (2 + k) b.length)
      else if (r2.take k).head?.getD 0 = 0 then .error .malformed
      else
        let L := beVal (r2.take k)
        if L < 128 then .error .malformed
        else .ok (t, L, r2.drop k)

/-- Modelled from the spec: splitting one complete TLV from the front of a
buffer, reporting Incomplete (with the total expected length) when the
buffer ends inside the header or the content. -/
def splitTLV (b : Bytes) : DerResult (Nat × Bytes × Bytes) :=
  match parseHeader b with
  | .error e => .error e
  | .ok (t, L, body) =>
    if body.length < L then .error (.incomplete (b.length - body.length + L) b.length)
    else .ok (t, body.take L, body.drop L)

theorem parseHeader_encode (t : Nat) (L : Nat) (suffix : Bytes) :
    parseHeader (t :: (encodeLen L ++ suffix)) = .ok (t, L, suffix) := by
  rw [encodeLen]
  by_cases h : L < 128
  · simp [parseHeader, h]
  · rw [if_neg h]
    obtain ⟨d, ds, hds⟩ : ∃ d ds, natBE L = d :: ds := by
      cases hnb : natBE L with
      | nil => exact absurd ((natBE_eq_nil_iff _).mp hnb) (by omega)
      | cons a b => exact ⟨a, b, rfl⟩
    have hlen : (natBE L).length = ds.length + 1 := by rw [hds]; simp
    have hd0 : d ≠ 0 := natBE_head_ne_zero L d ds hds
    simp only [List.cons_append, parseHeader]
    rw [if_neg (by omega), if_neg (by omega)]
    have hk : 128 + (natBE L).length - 128 = (natBE L).length := by omega
    rw [hk, if_neg (by simp [Nat.not_lt]), List.take_left, List.drop_left]
    rw [if_neg (by rw [hds]; simpa using hd0)]
    rw [beVal_natBE, if_neg h]

theorem splitTLV_encode (t : Nat) (c rest : Bytes) :
    splitTLV (tlv t c ++ rest) = .ok (t, c, rest) := by
  rw [tlv]
  simp only [List.cons_append, List.append_assoc]
  rw [splitTLV, parseHeader_encode]
  simp only
  rw [if_neg (by simp [Nat.not_lt]), List.take_left, List.drop_left]

theorem parseHeader_incomplete_gt (b : Bytes) (e a : Nat)
    (h : parseHeader b = .error (.incomplete e a)) : b.length < e := by
  match b with
  | [] => simp [parseHeader] at h; simp; omega
  | [x] => simp [parseHeader] at h; simp; omega
  | t :: l0 :: r2 =>
    rw [parseHeader] at h
    by_cases h1 : l0 < 128
    · simp [h1] at h
    · rw [if_neg h1] at h
      by_cases h2 : l0 = 128
      · simp [h2] at h
      · rw [if_neg h2] at h
        by_cases h3 : r2.length < l0 - 128
        · rw [if_pos h3] at h
          simp at h
          simp [← h.1]
          omega
        · rw [if_neg h3] at h
          by_cases h4 : (r2.take (l0 - 128)).head?.getD 0 = 0
          · simp [h4] at h
          · rw [if_neg h4] at h
            by_cases h5 : beVal (r2.take (l0 - 128)) < 128
            · simp [h5] at h
            · simp [h5] at h

theorem parseHeader_body_le (b : Bytes) (t L : Nat) (body : Bytes)
    (h : parseHeader b = .ok (t, L, body)) : body.length ≤ b.length := by
  match b with
  | [] => simp [parseHeader] at h
  | [x] => simp [parseHeader] at h
  | x :: l0 :: r2 =>
    rw [parseHeader] at h
    by_cases h1 : l0 < 128
    · simp [h1] at h
      simp [← h.2.2]
      omega
    · rw [if_neg h1] at h
      by_cases h2 : l0 = 128
      · simp [h2] at h
      · rw [if_neg h2] at h
        by_cases h3 : r2.length < l0 - 128
        · simp [h3] at h
        · rw [if_neg h3] at h
          by_cases h4 : (r2.take (l0 - 128)).head?.getD 0 = 0
          · simp [h4] at h
          · rw [if_neg h4] at h
            by_cases h5 : beVal (r2.take (l0 - 128)) < 128
            · simp [h5] at h
            · simp [h5] at h
              rw [← h.2.2]
              simp
              omega

theorem splitTLV_incomplete_gt (b : Bytes) (e a : Nat)
    (h : splitTLV b = .error (.incomplete e a)) : b.length < e := by
  rw [splitTLV] at h
  cases hph : parseHeader b with
  | error e' =>
    rw [hph] at h
    simp at h
    cases e' with
    | incomplete e2 a2 =>
      simp at h
      exact h.1 ▸ parseHeader_incomplete_gt b e2 a2 hph
    | malformed => simp at h
  | ok v =>
    obtain ⟨t, L, body⟩ := v
    rw [hph] at h
    simp only at h
    by_cases hb : body.length < L
    · rw [if_pos hb] at h
      simp at h
      have hle : body.length ≤ b.length := parseHeader_body_le b t L body hph
      omega
    · rw [if_neg hb] at h
      simp at h

/-- TLV splitting inside fully available content: every failure, truncation
included, is structural (the nested data is already all present). -/
def splitTLVin (b : Bytes) : Option (Nat × Bytes × Bytes) :=
  match splitTLV b with
  | .ok v => some v
  | .error _ => none

theorem splitTLVin_encode (t : Nat) (c rest : Bytes) :
    splitTLVin (tlv t c ++ rest) = some (t, c, rest) := by
  rw [splitTLVin, splitTLV_encode]

/-- Modelled from the spec: DER content octets of a non-negative INTEGER,
minimal big-endian with a leading zero octet when the top bit is set. -/
def encodeUInt (n : Nat) : Bytes :=
  let ds := if n = 0 then [0] else natBE n
  if 128 ≤ ds.head?.getD 0 then 0 :: ds else ds

/-- Modelled from the spec: decoding DER INTEGER content octets as an
unsigned value bounded by the target type, rejecting empty, negative and
non-minimal forms. -/
def parseUInt (mx : Nat) (c : Bytes) : Option Nat :=
  match c with
  | [] => none
  | [d] => if d < 128 then (if d ≤ mx then some d else none) else none
  | d0 :: d1 :: ds =>
    if 128 ≤ d0 then none
    else if d0 = 0 then
      (if d1 < 128 then none
       else (if beVal (d1 :: ds) ≤ mx then some (beVal (d1 :: ds)) else none))
    else (if beVal (d0 :: d1 :: ds) ≤ mx then some (beVal (d0 :: d1 :: ds)) else none)

theorem parseUInt_encode (mx n : Nat) (hn : n ≤ mx) :
    parseUInt mx (encodeUInt n) = some n := by
  rw [encodeUInt]
  by_cases h0 : n = 0
  · simp [h0, parseUInt]
  · rw [if_neg h0]
    obtain ⟨d, ds, hds⟩ : ∃ d ds, natBE n = d :: ds := by
      cases hnb : natBE n with
      | nil => exact absurd ((natBE_eq_nil_iff _).mp hnb) h0
      | cons a b => exact ⟨a, b, rfl⟩
    have hd0 : d ≠ 0 := natBE_head_ne_zero n d ds hds
    have hval : beVal (d :: ds) = n := hds ▸ beVal_natBE n
    rw [hds]
    by_cases hbig : 128 ≤ d
    · rw [if_pos (by simpa using hbig)]
      rw [parseUInt]
      rw [if_neg (by omega : ¬ (128:Nat) ≤ 0), if_pos rfl,
        if_neg (by omega : ¬ d < 128), hval, if_pos hn]
    · rw [if_neg (by simpa using hbig)]
      cases ds with
      | nil =>
        have : d = n := by simpa [beVal] using hval
        subst this
        simp [parseUInt, hbig, hn, if_pos (by omega : d < 128)]
      | cons d1 ds' =>
        rw [parseUInt]
        simp only [if_neg hbig, if_neg hd0]
        rw [hval, if_pos hn]

/-- Content of a ctx wrapper holding exactly one INTEGER TLV. -/
def pUIntTLV (mx : Nat) (b : Bytes) : Option Nat :=
  match splitTLVin b with
  | some (t, c, rest) => if t = 2 ∧ rest = [] then parseUInt mx c else none
  | none => none

/-- An INTEGER TLV. -/
def intTLV (n : Nat) : Bytes := tlv 2 (encodeUInt n)

theorem pUIntTLV_encode (mx n : Nat) (hn : n ≤ mx) :
    pUIntTLV mx (intTLV n) = some n := by
  rw [pUIntTLV, intTLV]
  rw [show tlv 2 (encodeUInt n) = tlv 2 (encodeUInt n) ++ [] by simp]
  rw [splitTLVin_encode]
  simp [parseUInt_encode mx n hn]

/-- A UTF8String TLV; the Rust String is modelled by its UTF-8 byte string. -/
def utf8TLV (s : Bytes) : Bytes := tlv 12 s

/-- An OCTET STRING TLV. -/
def octTLV (s : Bytes) : Bytes := tlv 4 s

/-- Content of a ctx wrapper holding exactly one UTF8String TLV. -/
def pUtf8 (b : Bytes) : Option Bytes :=
  match splitTLVin b with
  | some (t, c, rest) => if t = 12 ∧ rest = [] then some c else none
  | none => none

/-- Content of a ctx wrapper holding exactly one OCTET STRING TLV. -/
def pOct (b : Bytes) : Option Bytes :=
  match splitTLVin b with
  | some (t, c, rest) => if t = 4 ∧ rest = [] then some c else none
  | none => none

theorem pUtf8_encode (s : Bytes) : pUtf8 (utf8TLV s) = some s := by
  rw [pUtf8, utf8TLV]
  rw [show tlv 12 s = tlv 12 s ++ [] by simp]
  rw [splitTLVin_encode]
  simp

theorem pOct_encode (s : Bytes) : pOct (octTLV s) = some s := by
  rw [pOct, octTLV]
  rw [show tlv 4 s = tlv 4 s ++ [] by simp]
  rw [splitTLVin_encode]
  simp

/-- SEQUENCE OF OCTET STRING content: a run of OCTET STRING TLVs.
The fuel argument bounds the recursion by the buffer length. -/
def pOctList (fuel : Nat) (b : Bytes) : Option (List Bytes) :=
  if b = [] then some []
  else match fuel with
  | 0 => none
  | Nat.succ fuel =>
    match splitTLVin b with
    | some (t, c, rest) =>
      if t = 4 then Option.map (fun l => c :: l) (pOctList fuel rest) else none
    | none => none

/-- Encoded content of a SEQUENCE OF OCTET STRING. -/
def chainContent (l : List Bytes) : Bytes := (l.map octTLV).flatten

/-- The cert-chain TLV: SEQUENCE OF OCTET STRING. -/
def chainTLV (l : List Bytes) : Bytes := tlv 48 (chainContent l)

theorem tlv_length_pos (t : Nat) (c : Bytes) : 0 < (tlv t c).length := by
  simp [tlv]

theorem pOctList_encode (l : List Bytes) (fuel : Nat)
    (hf : (chainContent l).length ≤ fuel) :
    pOctList fuel (chainContent l) = some l := by
  induction l generalizing fuel with
  | nil => cases fuel <;> simp [chainContent, pOctList]
  | cons c rest ih =>
    have hcc : chainContent (c :: rest) = octTLV c ++ chainContent rest := by
      simp [chainContent]
    rw [hcc] at hf ⊢
    have hpos : 0 < (octTLV c).length := tlv_length_pos 4 c
    have hlen : (octTLV c ++ chainContent rest).length =
        (octTLV c).length + (chainContent rest).length := by simp
    have hne : octTLV c ++ chainContent rest ≠ [] := by
      simp [octTLV, tlv]
    obtain ⟨fuel', rfl⟩ : ∃ f, fuel = f + 1 := by
      cases fuel with
      | zero =>
        exfalso
        have hle : 1 ≤ (octTLV c ++ chainContent rest).length := by
          rw [hlen]; omega
        omega
      | succ f => exact ⟨f, rfl⟩
    have hrest : (chainContent rest).length ≤ fuel' := by
      rw [hlen] at hf
      omega
    rw [pOctList, if_neg hne]
    rw [show (octTLV c : Bytes) = tlv 4 c from rfl, splitTLVin_encode]
    simp only [if_pos rfl]
    rw [ih fuel' hrest]
    rfl

/-- Content of a ctx wrapper holding exactly one cert-chain SEQUENCE TLV. -/
def pChain (b : Bytes) : Option (List Bytes) :=
  match splitTLVin b with
  | some (t, c, rest) =>
    if t = 48 ∧ rest = [] then pOctList c.length c else none
  | none => none

theorem pChain_encode (l : List Bytes) : pChain (chainTLV l) = some l := by
  have h : splitTLVin (chainTLV l) = some (48, chainContent l, []) := by
    rw [chainTLV,
      show tlv 48 (chainContent l) = tlv 48 (chainContent l) ++ [] by simp,
      splitTLVin_encode]
  rw [pChain, h]
  simp [pOctList_encode l _ le_rfl]

/-- Supported base version constant, from the source. -/
def BASE_VERSION : Nat := 3389

/-- The one supported protocol version, from the source. -/
def VERSION_1 : Nat := BASE_VERSION + 1

/-- Range of a u64 value. -/
def U64_MAX : Nat := 18446744073709551615

/-- Range of a u16 value. -/
def U16_MAX : Nat := 65535

/-- Range of a u8 value. -/
def U8_MAX : Nat := 255

/-- The nested error sub-message RDCleanPathErr, translated from the source;
the u16/u8 machine integers are carried as Nat. -/
structure RDCleanPathErr where
  error_code : Nat
  http_status_code : Option Nat
  wsa_last_error : Option Nat
  tls_alert_code : Option Nat
deriving DecidableEq

/-- The negotiation message RDCleanPathPdu, translated from the source.
Rust Strings and OctetStrings are carried as byte strings. -/
structure RDCleanPathPdu where
  version : Nat
  error : Option RDCleanPathErr
  destination : Option Bytes
  proxy_auth : Option Bytes
  server_auth : Option Bytes
  preconnection_blob : Option Bytes
  x224_connection_pdu : Option Bytes
  server_cert_chain : Option (List Bytes)
  server_addr : Option Bytes
deriving DecidableEq

/-- An optional field: omitted entirely when absent, else wrapped in its
context-specific EXPLICIT tag (spec section 6). -/
def optEnc {α : Type} (n : Nat) (enc : α → Bytes) : Option α → Bytes
  | none => []
  | some v => ctxTLV n (enc v)

/-- DER content of the error SEQUENCE: tags 0-3 (spec section 6). -/
def errContent (e : RDCleanPathErr) : Bytes :=
  ctxTLV 0 (intTLV e.error_code) ++ optEnc 1 intTLV e.http_status_code
    ++ optEnc 2 intTLV e.wsa_last_error ++ optEnc 3 intTLV e.tls_alert_code

/-- The error sub-message as a nested SEQUENCE TLV. -/
def errTLV (e : RDCleanPathErr) : Bytes := tlv 48 (errContent e)

/-- DER content of the message SEQUENCE: fields at context tags
0,1,2,3,4,5,6,7,9; absent optionals are omitted (spec section 6). -/
def pduContent (m : RDCleanPathPdu) : Bytes :=
  ctxTLV 0 (intTLV m.version) ++ optEnc 1 errTLV m.error
    ++ optEnc 2 utf8TLV m.destination ++ optEnc 3 utf8TLV m.proxy_auth
    ++ optEnc 4 utf8TLV m.server_auth ++ optEnc 5 utf8TLV m.preconnection_blob
    ++ optEnc 6 octTLV m.x224_connection_pdu
    ++ optEnc 7 chainTLV m.server_cert_chain
    ++ optEnc 9 utf8TLV m.server_addr

/-- Canonical serialization, mirroring RDCleanPathPdu::to_der. -/
def RDCleanPathPdu.to_der (m : RDCleanPathPdu) : Bytes := tlv 48 (pduContent m)

/-- Parse one optional context-tagged field: when the next tag is this field's
tag the wrapper must parse (else the data is malformed); any other next tag
means the field is absent and the buffer is left untouched. -/
def parseField {α : Type} (n : Nat) (p : Bytes → Option α) (b : Bytes) :
    Option (Option α × Bytes) :=
  if b.head?.getD 0 = 160 + n then
    match splitTLVin b with
    | some (_, c, rest) =>
      match p c with
      | some v => some (some v, rest)
      | none => none
    | none => none
  else some (none, b)

/-- Parse one required context-tagged field. -/
def pReqField {α : Type} (n : Nat) (p : Bytes → Option α) (b : Bytes) :
    Option (α × Bytes) :=
  match splitTLVin b with
  | some (t, c, rest) =>
    if t = 160 + n then
      match p c with
      | some v => some (v, rest)
      | none => none
    else none
  | none => none

theorem ctxTLV_cons (n : Nat) (c : Bytes) :
    ctxTLV n c = (160 + n) :: (encodeLen c.length ++ c) := rfl

theorem parseField_hit {α : Type} (n : Nat) (p : Bytes → Option α)
    (c rest : Bytes) (v : α) (hp : p c = some v) :
    parseField n p (ctxTLV n c ++ rest) = some (some v, rest) := by
  rw [parseField, if_pos (by simp [ctxTLV_cons])]
  rw [show ctxTLV n c ++ rest = tlv (160 + n) c ++ rest from rfl, splitTLVin_encode]
  simp [hp]

theorem parseField_miss {α : Type} (n : Nat) (p : Bytes → Option α) (b : Bytes)
    (h : b.head?.getD 0 ≠ 160 + n) : parseField n p b = some (none, b) := by
  rw [parseField, if_neg h]

theorem pReqField_hit {α : Type} (n : Nat) (p : Bytes → Option α)
    (c rest : Bytes) (v : α) (hp : p c = some v) :
    pReqField n p (ctxTLV n c ++ rest) = some (v, rest) := by
  rw [pReqField]
  rw [show ctxTLV n c ++ rest = tlv (160 + n) c ++ rest from rfl, splitTLVin_encode]
  simp [hp]

/-- Every byte that can start this buffer is a context tag numbered at least
n: the shape of the unread tail of a field chain. -/
def headGe (n : Nat) (b : Bytes) : Prop :=
  ∀ t, b.head? = some t → 160 + n ≤ t

theorem headGe_nil (n : Nat) : headGe n [] := by
  intro t h; simp at h

theorem headGe_append (n : Nat) (b1 b2 : Bytes)
    (h1 : headGe n b1) (h2 : headGe n b2) : headGe n (b1 ++ b2) := by
  cases b1 with
  | nil => simpa using h2
  | cons x xs =>
    intro t ht
    simp at ht
    exact ht ▸ h1 x rfl

theorem headGe_optEnc {α : Type} (k n : Nat) (enc : α → Bytes) (o : Option α)
    (hk : n ≤ k) : headGe n (optEnc k enc o) := by
  cases o with
  | none => exact headGe_nil n
  | some v =>
    intro t ht
    simp [optEnc, ctxTLV_cons] at ht
    omega

theorem parseField_miss_ge {α : Type} (n : Nat) (p : Bytes → Option α)
    (b : Bytes) (h : headGe (n + 1) b) : parseField n p b = some (none, b) := by
  apply parseField_miss
  cases hb : b.head? with
  | none =>
    simp [hb]
    omega
  | some t =>
    have := h t hb
    simp [hb]
    omega

/-- Bound predicate for an optional machine-integer field. -/
def wfOpt (mx : Nat) : Option Nat → Prop
  | none => True
  | some v => v ≤ mx

/-- The error sub-message numeric fields are inside their machine ranges. -/
def wfErr (e : RDCleanPathErr) : Prop :=
  e.error_code ≤ U16_MAX ∧ wfOpt U16_MAX e.http_status_code ∧
    wfOpt U16_MAX e.wsa_last_error ∧ wfOpt U8_MAX e.tls_alert_code

/-- The message numeric fields are inside their machine ranges. -/
def wfPdu (m : RDCleanPathPdu) : Prop :=
  m.version ≤ U64_MAX ∧ (∀ e, m.error = some e → wfErr e)

/-- Error-sequence tail parser: optional tag 3 then end of content. -/
def pE3 (b : Bytes) : Option (Option Nat) :=
  (parseField 3 (pUIntTLV U8_MAX) b).bind fun vb =>
    if vb.2 = [] then some vb.1 else none

/-- Error-sequence tail parser: optional tags 2 and 3. -/
def pE2 (b : Bytes) : Option (Option Nat × Option Nat) :=
  (parseField 2 (pUIntTLV U16_MAX) b).bind fun vb =>
    (pE3 vb.2).map fun v3 => (vb.1, v3)

/-- Error-sequence tail parser: optional tags 1, 2 and 3. -/
def pE1 (b : Bytes) : Option (Option Nat × Option Nat × Option Nat) :=
  (parseField 1 (pUIntTLV U16_MAX) b).bind fun vb =>
    (pE2 vb.2).map fun v23 => (vb.1, v23)

/-- Content of a ctx wrapper holding the nested error SEQUENCE. -/
def pErrSeq (b : Bytes) : Option RDCleanPathErr :=
  match splitTLVin b with
  | some (t, c, rest) =>
    if t = 48 ∧ rest = [] then
      (pReqField 0 (pUIntTLV U16_MAX) c).bind fun vb =>
        (pE1 vb.2).map fun v => ⟨vb.1, v.1, v.2.1, v.2.2⟩
    else none
  | none => none

theorem pE3_encode (o3 : Option Nat) (h3 : wfOpt U8_MAX o3) :
    pE3 (optEnc 3 intTLV o3) = some o3 := by
  cases o3 with
  | none =>
    rw [pE3, optEnc, parseField_miss_ge 3 _ [] (headGe_nil 4)]
    simp
  | some v =>
    simp only [wfOpt] at h3
    rw [pE3, optEnc,
      show ctxTLV 3 (intTLV v) = ctxTLV 3 (intTLV v) ++ [] by simp,
      parseField_hit 3 _ _ [] v (pUIntTLV_encode _ v h3)]
    simp

theorem pE2_encode (o2 o3 : Option Nat)
    (h2 : wfOpt U16_MAX o2) (h3 : wfOpt U8_MAX o3) :
    pE2 (optEnc 2 intTLV o2 ++ optEnc 3 intTLV o3) = some (o2, o3) := by
  cases o2 with
  | none =>
    rw [pE2, optEnc, List.nil_append,
      parseField_miss_ge 2 _ _ (headGe_optEnc 3 3 intTLV o3 le_rfl)]
    simp [pE3_encode o3 h3]
  | some v =>
    simp only [wfOpt] at h2
    rw [pE2, optEnc, parseField_hit 2 _ _ _ v (pUIntTLV_encode _ v h2)]
    simp [pE3_encode o3 h3]

theorem pE1_encode (o1 o2 o3 : Option Nat)
    (h1 : wfOpt U16_MAX o1) (h2 : wfOpt U16_MAX o2) (h3 : wfOpt U8_MAX o3) :
    pE1 (optEnc 1 intTLV o1 ++ (optEnc 2 intTLV o2 ++ optEnc 3 intTLV o3)) =
      some (o1, o2, o3) := by
  cases o1 with
  | none =>
    rw [pE1, optEnc, List.nil_append,
      parseField_miss_ge 1 _ _
        (headGe_append 2 _ _ (headGe_optEnc 2 2 intTLV o2 le_rfl)
          (headGe_optEnc 3 2 intTLV o3 (by omega)))]
    simp [pE2_encode o2 o3 h2 h3]
  | some v =>
    simp only [wfOpt] at h1
    rw [pE1, optEnc, parseField_hit 1 _ _ _ v (pUIntTLV_encode _ v h1)]
    simp [pE2_encode o2 o3 h2 h3]

theorem pErrSeq_encode (e : RDCleanPathErr) (he : wfErr e) :
    pErrSeq (errTLV e) = some e := by
  obtain ⟨h0, h1, h2, h3⟩ := he
  have hs : splitTLVin (errTLV e) = some (48, errContent e, []) := by
    rw [errTLV,
      show tlv 48 (errContent e) = tlv 48 (errContent e) ++ [] by simp,
      splitTLVin_encode]
  simp only [pErrSeq, hs, eq_self_iff_true, and_self, if_true]
  rw [errContent]
  simp only [List.append_assoc]
  rw [pReqField_hit 0 _ _ _ e.error_code (pUIntTLV_encode _ _ h0)]
  simp only [Option.some_bind]
  rw [pE1_encode e.http_status_code e.wsa_last_error e.tls_alert_code h1 h2 h3]
  rfl

/-- Encoded field chain from tag 9 on. -/
def enc9 (f9 : Option Bytes) : Bytes := optEnc 9 utf8TLV f9

/-- Encoded field chain from tag 7 on. -/
def enc7 (f7 : Option (List Bytes)) (f9 : Option Bytes) : Bytes :=
  optEnc 7 chainTLV f7 ++ enc9 f9

/-- Encoded field chain from tag 6 on. -/
def enc6 (f6 : Option Bytes) (f7 : Option (List Bytes)) (f9 : Option Bytes) : Bytes :=
  optEnc 6 octTLV f6 ++ enc7 f7 f9

/-- Encoded field chain from tag 5 on. -/
def enc5 (f5 f6 : Option Bytes) (f7 : Option (List Bytes)) (f9 : Option Bytes) : Bytes :=
  optEnc 5 utf8TLV f5 ++ enc6 f6 f7 f9

/-- Encoded field chain from tag 4 on. -/
def enc4 (f4 f5 f6 : Option Bytes) (f7 : Option (List Bytes)) (f9 : Option Bytes) : Bytes :=
  optEnc 4 utf8TLV f4 ++ enc5 f5 f6 f7 f9

/-- Encoded field chain from tag 3 on. -/
def enc3 (f3 f4 f5 f6 : Option Bytes) (f7 : Option (List Bytes)) (f9 : Option Bytes) : Bytes :=
  optEnc 3 utf8TLV f3 ++ enc4 f4 f5 f6 f7 f9

/-- Encoded field chain from tag 2 on. -/
def enc2 (f2 f3 f4 f5 f6 : Option Bytes) (f7 : Option (List Bytes)) (f9 : Option Bytes) : Bytes :=
  optEnc 2 utf8TLV f2 ++ enc3 f3 f4 f5 f6 f7 f9

/-- Encoded field chain from tag 1 on. -/
def enc1 (f1 : Option RDCleanPathErr) (f2 f3 f4 f5 f6 : Option Bytes)
    (f7 : Option (List Bytes)) (f9 : Option Bytes) : Bytes :=
  optEnc 1 errTLV f1 ++ enc2 f2 f3 f4 f5 f6 f7 f9

theorem pduContent_eq (m : RDCleanPathPdu) :
    pduContent m = ctxTLV 0 (intTLV m.version) ++
      enc1 m.error m.destination m.proxy_auth m.server_auth
        m.preconnection_blob m.x224_connection_pdu m.server_cert_chain
        m.server_addr := by
  simp [pduContent, enc1, enc2, enc3, enc4, enc5, enc6, enc7, enc9]

theorem headGe_enc9 (n : Nat) (f9 : Option Bytes) (h : n ≤ 9) :
    headGe n (enc9 f9) := headGe_optEnc 9 n utf8TLV f9 h

theorem headGe_enc7 (n : Nat) (f7 : Option (List Bytes)) (f9 : Option Bytes)
    (h : n ≤ 7) : headGe n (enc7 f7 f9) :=
  headGe_append n _ _ (headGe_optEnc 7 n chainTLV f7 h) (headGe_enc9 n f9 (by omega))

theorem headGe_enc6 (n : Nat) (f6 : Option Bytes) (f7 : Option (List Bytes))
    (f9 : Option Bytes) (h : n ≤ 6) : headGe n (enc6 f6 f7 f9) :=
  headGe_append n _ _ (headGe_optEnc 6 n octTLV f6 h) (headGe_enc7 n f7 f9 (by omega))

theorem headGe_enc5 (n : Nat) (f5 f6 : Option Bytes) (f7 : Option (List Bytes))
    (f9 : Option Bytes) (h : n ≤ 5) : headGe n (enc5 f5 f6 f7 f9) :=
  headGe_append n _ _ (headGe_optEnc 5 n utf8TLV f5 h) (headGe_enc6 n f6 f7 f9 (by omega))

theorem headGe_enc4 (n : Nat) (f4 f5 f6 : Option Bytes) (f7 : Option (List Bytes))
    (f9 : Option Bytes) (h : n ≤ 4) : headGe n (enc4 f4 f5 f6 f7 f9) :=
  headGe_append n _ _ (headGe_optEnc 4 n utf8TLV f4 h) (headGe_enc5 n f5 f6 f7 f9 (by omega))

theorem headGe_enc3 (n : Nat) (f3 f4 f5 f6 : Option Bytes) (f7 : Option (List Bytes))
    (f9 : Option Bytes) (h : n ≤ 3) : headGe n (enc3 f3 f4 f5 f6 f7 f9) :=
  headGe_append n _ _ (headGe_optEnc 3 n utf8TLV f3 h) (headGe_enc4 n f4 f5 f6 f7 f9 (by omega))

theorem headGe_enc2 (n : Nat) (f2 f3 f4 f5 f6 : Option Bytes) (f7 : Option (List Bytes))
    (f9 : Option Bytes) (h : n ≤ 2) : headGe n (enc2 f2 f3 f4 f5 f6 f7 f9) :=
  headGe_append n _ _ (headGe_optEnc 2 n utf8TLV f2 h) (headGe_enc3 n f3 f4 f5 f6 f7 f9 (by omega))

/-- Message field chain parser from tag 9 on (must end the content). -/
def pF9 (b : Bytes) : Option (Option Bytes) :=
  (parseField 9 pUtf8 b).bind fun vb => if vb.2 = [] then some vb.1 else none

/-- Message field chain parser from tag 7 on. -/
def pF7 (b : Bytes) : Option (Option (List Bytes) × Option Bytes) :=
  (parseField 7 pChain b).bind fun vb => (pF9 vb.2).map fun v => (vb.1, v)

/-- Message field chain parser from tag 6 on. -/
def pF6 (b : Bytes) : Option (Option Bytes × Option (List Bytes) × Option Bytes) :=
  (parseField 6 pOct b).bind fun vb => (pF7 vb.2).map fun v => (vb.1, v)

/-- Message field chain parser from tag 5 on. -/
def pF5 (b : Bytes) :
    Option (Option Bytes × Option Bytes × Option (List Bytes) × Option Bytes) :=
  (parseField 5 pUtf8 b).bind fun vb => (pF6 vb.2).map fun v => (vb.1, v)

/-- Message field chain parser from tag 4 on. -/
def pF4 (b : Bytes) :
    Option (Option Bytes × Option Bytes × Option Bytes × Option (List Bytes) × Option Bytes) :=
  (parseField 4 pUtf8 b).bind fun vb => (pF5 vb.2).map fun v => (vb.1, v)

/-- Message field chain parser from tag 3 on. -/
def pF3 (b : Bytes) :
    Option (Option Bytes × Option Bytes × Option Bytes × Option Bytes ×
      Option (List Bytes) × Option Bytes) :=
  (parseField 3 pUtf8 b).bind fun vb => (pF4 vb.2).map fun v => (vb.1, v)

/-- Message field chain parser from tag 2 on. -/
def pF2 (b : Bytes) :
    Option (Option Bytes × Option Bytes × Option Bytes × Option Bytes × Option Bytes ×
      Option (List Bytes) × Option Bytes) :=
  (parseField 2 pUtf8 b).bind fun vb => (pF3 vb.2).map fun v => (vb.1, v)

/-- Message field chain parser from tag 1 on. -/
def pF1 (b : Bytes) :
    Option (Option RDCleanPathErr × Option Bytes × Option Bytes × Option Bytes ×
      Option Bytes × Option Bytes × Option (List Bytes) × Option Bytes) :=
  (parseField 1 pErrSeq b).bind fun vb => (pF2 vb.2).map fun v => (vb.1, v)

/-- Full message SEQUENCE content parser: required version at tag 0, then the
optional field chain; the content must be fully consumed. -/
def parsePduContent (b : Bytes) : Option RDCleanPathPdu :=
  (pReqField 0 (pUIntTLV U64_MAX) b).bind fun vb =>
    (pF1 vb.2).map fun v =>
      ⟨vb.1, v.1, v.2.1, v.2.2.1, v.2.2.2.1, v.2.2.2.2.1, v.2.2.2.2.2.1,
        v.2.2.2.2.2.2.1, v.2.2.2.2.2.2.2⟩

theorem pF9_encode (f9 : Option Bytes) : pF9 (enc9 f9) = some f9 := by
  cases f9 with
  | none =>
    rw [pF9, enc9, optEnc, parseField_miss_ge 9 _ [] (headGe_nil 10)]
    simp
  | some s =>
    rw [pF9, enc9, optEnc,
      show ctxTLV 9 (utf8TLV s) = ctxTLV 9 (utf8TLV s) ++ [] by simp,
      parseField_hit 9 _ _ [] s (pUtf8_encode s)]
    simp

theorem pF7_encode (f7 : Option (List Bytes)) (f9 : Option Bytes) :
    pF7 (enc7 f7 f9) = some (f7, f9) := by
  cases f7 with
  | none =>
    rw [pF7, enc7, optEnc, List.nil_append,
      parseField_miss_ge 7 _ _ (headGe_enc9 8 f9 (by omega))]
    simp [pF9_encode f9]
  | some l =>
    rw [pF7, enc7, optEnc, parseField_hit 7 _ _ _ l (pChain_encode l)]
    simp [pF9_encode f9]

theorem pF6_encode (f6 : Option Bytes) (f7 : Option (List Bytes)) (f9 : Option Bytes) :
    pF6 (enc6 f6 f7 f9) = some (f6, f7, f9) := by
  cases f6 with
  | none =>
    rw [pF6, enc6, optEnc, List.nil_append,
      parseField_miss_ge 6 _ _ (headGe_enc7 7 f7 f9 le_rfl)]
    simp [pF7_encode f7 f9]
  | some s =>
    rw [pF6, enc6, optEnc, parseField_hit 6 _ _ _ s (pOct_encode s)]
    simp [pF7_encode f7 f9]

theorem pF5_encode (f5 f6 : Option Bytes) (f7 : Option (List Bytes)) (f9 : Option Bytes) :
    pF5 (enc5 f5 f6 f7 f9) = some (f5, f6, f7, f9) := by
  cases f5 with
  | none =>
    rw [pF5, enc5, optEnc, List.nil_append,
      parseField_miss_ge 5 _ _ (headGe_enc6 6 f6 f7 f9 le_rfl)]
    simp [pF6_encode f6 f7 f9]
  | some s =>
    rw [pF5, enc5, optEnc, parseField_hit 5 _ _ _ s (pUtf8_encode s)]
    simp [pF6_encode f6 f7 f9]

theorem pF4_encode (f4 f5 f6 : Option Bytes) (f7 : Option (List Bytes)) (f9 : Option Bytes) :
    pF4 (enc4 f4 f5 f6 f7 f9) = some (f4, f5, f6, f7, f9) := by
  cases f4 with
  | none =>
    rw [pF4, enc4, optEnc, List.nil_append,
      parseField_miss_ge 4 _ _ (headGe_enc5 5 f5 f6 f7 f9 le_rfl)]
    simp [pF5_encode f5 f6 f7 f9]
  | some s =>
    rw [pF4, enc4, optEnc, parseField_hit 4 _ _ _ s (pUtf8_encode s)]
    simp [pF5_encode f5 f6 f7 f9]

theorem pF3_encode (f3 f4 f5 f6 : Option Bytes) (f7 : Option (List Bytes)) (f9 : Option Bytes) :
    pF3 (enc3 f3 f4 f5 f6 f7 f9) = some (f3, f4, f5, f6, f7, f9) := by
  cases f3 with
  | none =>
    rw [pF3, enc3, optEnc, List.nil_append,
      parseField_miss_ge 3 _ _ (headGe_enc4 4 f4 f5 f6 f7 f9 le_rfl)]
    simp [pF4_encode f4 f5 f6 f7 f9]
  | some s =>
    rw [pF3, enc3, optEnc, parseField_hit 3 _ _ _ s (pUtf8_encode s)]
    simp [pF4_encode f4 f5 f6 f7 f9]

theorem pF2_encode (f2 f3 f4 f5 f6 : Option Bytes) (f7 : Option (List Bytes)) (f9 : Option Bytes) :
    pF2 (enc2 f2 f3 f4 f5 f6 f7 f9) = some (f2, f3, f4, f5, f6, f7, f9) := by
  cases f2 with
  | none =>
    rw [pF2, enc2, optEnc, List.nil_append,
      parseField_miss_ge 2 _ _ (headGe_enc3 3 f3 f4 f5 f6 f7 f9 le_rfl)]
    simp [pF3_encode f3 f4 f5 f6 f7 f9]
  | some s =>
    rw [pF2, enc2, optEnc, parseField_hit 2 _ _ _ s (pUtf8_encode s)]
    simp [pF3_encode f3 f4 f5 f6 f7 f9]

theorem pF1_encode (f1 : Option RDCleanPathErr) (f2 f3 f4 f5 f6 : Option Bytes)
    (f7 : Option (List Bytes)) (f9 : Option Bytes)
    (hf1 : ∀ e, f1 = some e → wfErr e) :
    pF1 (enc1 f1 f2 f3 f4 f5 f6 f7 f9) = some (f1, f2, f3, f4, f5, f6, f7, f9) := by
  cases f1 with
  | none =>
    rw [pF1, enc1, optEnc, List.nil_append,
      parseField_miss_ge 1 _ _ (headGe_enc2 2 f2 f3 f4 f5 f6 f7 f9 le_rfl)]
    simp [pF2_encode f2 f3 f4 f5 f6 f7 f9]
  | some e =>
    rw [pF1, enc1, optEnc,
      parseField_hit 1 _ _ _ e (pErrSeq_encode e (hf1 e rfl))]
    simp [pF2_encode f2 f3 f4 f5 f6 f7 f9]

theorem parsePduContent_encode (m : RDCleanPathPdu) (hm : wfPdu m) :
    parsePduContent (pduContent m) = some m := by
  obtain ⟨hv, herr⟩ := hm
  rw [pduContent_eq, parsePduContent,
    pReqField_hit 0 _ _ _ m.version (pUIntTLV_encode _ _ hv)]
  simp only [Option.some_bind]
  rw [pF1_encode m.error m.destination m.proxy_auth m.server_auth
    m.preconnection_blob m.x224_connection_pdu m.server_cert_chain
    m.server_addr herr]
  rfl

/-- Full-schema decoder: one message parsed from the front of the buffer.

Modelled from the spec: a truncated outer TLV is Incomplete; everything else
that fails is malformed; decode consumes exactly one message from the front,
so trailing bytes after the message TLV are tolerated here. -/
def fromDer (b : Bytes) : DerResult RDCleanPathPdu :=
  match splitTLV b with
  | .error e => .error e
  | .ok (t, c, _rest) =>
    if t = 48 then
      match parsePduContent c with
      | some pdu => .ok pdu
      | none => .error .malformed
    else .error .malformed

theorem fromDer_encode (m : RDCleanPathPdu) (hm : wfPdu m) (rest : Bytes) :
    fromDer (m.to_der ++ rest) = .ok m := by
  rw [RDCleanPathPdu.to_der, fromDer, splitTLV_encode]
  simp [parsePduContent_encode m hm]

theorem fromDer_incomplete_iff (b : Bytes) (e a : Nat) :
    fromDer b = .error (.incomplete e a) ↔ splitTLV b = .error (.incomplete e a) := by
  constructor
  · intro h
    rw [fromDer] at h
    cases hs : splitTLV b with
    | error e' =>
      rw [hs] at h
      simp at h
      rw [h]
    | ok v =>
      obtain ⟨t, c, rest⟩ := v
      rw [hs] at h
      simp only at h
      by_cases ht : t = 48
      · rw [if_pos ht] at h
        cases hp : parsePduContent c with
        | some pdu => rw [hp] at h; simp at h
        | none => rw [hp] at h; simp at h
      · rw [if_neg ht] at h; simp at h
  · intro h
    rw [fromDer, h]

theorem fromDer_incomplete_gt (b : Bytes) (e a : Nat)
    (h : fromDer b = .error (.incomplete e a)) : b.length < e :=
  splitTLV_incomplete_gt b e a ((fromDer_incomplete_iff b e a).mp h)

/-- The caller-owned growable byte buffer (bytes::BytesMut): its readable
bytes and its total capacity. -/
structure BytesMut where
  data : Bytes
  cap : Nat
deriving DecidableEq

/-- BytesMut::advance: discard n bytes from the front. -/
def BytesMut.advance (b : BytesMut) (n : Nat) : BytesMut :=
  ⟨b.data.drop n, b.cap - n⟩

/-- BytesMut::reserve: ensure capacity for n more bytes after the current
content. -/
def BytesMut.reserve (b : BytesMut) (n : Nat) : BytesMut :=
  ⟨b.data, Nat.max b.cap (b.data.length + n)⟩

/-- RDCleanPathPdu::decode, translated from the source: full decode from the
front of the caller buffer; on success advance by the encoded length of the
decoded message; on Incomplete reserve up to the expected length and report
not-yet-available; propagate any other failure. -/
def RDCleanPathPdu.decode (src : BytesMut) :
    DerResult (Option RDCleanPathPdu) × BytesMut :=
  match fromDer src.data with
  | .ok pdu => (.ok (some pdu), src.advance pdu.to_der.length)
  | .error (.incomplete expected_len _actual_len) =>
    (.ok none, src.reserve (expected_len - src.data.length))
  | .error .malformed => (.error .malformed, src)

/-- DetectionResult, translated from the source. -/
inductive DetectionResult where
  | Detected (version : Nat)
  | NotEnoughBytes
  | Failed
deriving DecidableEq

/-- The reduced-schema decoder used by detect.

Modelled from the spec: it decodes only the leading version field — the
outer SEQUENCE header followed by the version INTEGER at context tag 0 —
reporting Incomplete while the version prefix is still truncated, and a
structural error when the prefix is present but invalid. Fields after the
version are not inspected. -/
def reducedFromDer (b : Bytes) : DerResult Nat :=
  match parseHeader b with
  | .error e => .error e
  | .ok (t, _L, body) =>
    if t = 48 then
      match splitTLV body with
      | .error e => .error e
      | .ok (t0, c0, _rest) =>
        if t0 = 160 then
          match splitTLVin c0 with
          | some (ti, ci, r2) =>
            if ti = 2 ∧ r2 = [] then
              match parseUInt U64_MAX ci with
              | some v => .ok v
              | none => .error .malformed
            else .error .malformed
          | none => .error .malformed
        else .error .malformed
    else .error .malformed

/-- RDCleanPathPdu::detect, translated from the source: probe the version
with the reduced schema, map a truncated buffer to NotEnoughBytes, accept
only the supported version, and fail on everything else. -/
def RDCleanPathPdu.detect (src : Bytes) : DetectionResult :=
  match reducedFromDer src with
  | .ok v => if v = VERSION_1 then .Detected v else .Failed
  | .error (.incomplete _ _) => .NotEnoughBytes
  | .error .malformed => .Failed

/-- Default::default for RDCleanPathPdu, translated from the source. -/
def RDCleanPathPdu.default : RDCleanPathPdu :=
  { version := VERSION_1
    error := none
    destination := none
    proxy_auth := none
    server_auth := none
    preconnection_blob := none
    x224_connection_pdu := none
    server_cert_chain := none
    server_addr := none }

/-- RDCleanPathPdu::new_request, translated from the source. -/
def RDCleanPathPdu.new_request (x224_pdu : Bytes) (destination : Bytes)
    (proxy_auth : Bytes) (pcb : Option Bytes) : RDCleanPathPdu :=
  { RDCleanPathPdu.default with
    version := VERSION_1
    destination := some destination
    proxy_auth := some proxy_auth
    preconnection_blob := pcb
    x224_connection_pdu := some x224_pdu }

/-- RDCleanPathPdu::new_response, translated from the source. -/
def RDCleanPathPdu.new_response (server_addr : Bytes) (x224_pdu : Bytes)
    (x509_chain : List Bytes) : RDCleanPathPdu :=
  { RDCleanPathPdu.default with
    version := VERSION_1
    x224_connection_pdu := some x224_pdu
    server_cert_chain := some x509_chain
    server_addr := some server_addr }

/-- RDCleanPathPdu::new_general_error, translated from the source. -/
def RDCleanPathPdu.new_general_error : RDCleanPathPdu :=
  { RDCleanPathPdu.default with
    version := VERSION_1
    error := some
      { error_code := 1
        http_status_code := none
        wsa_last_error := none
        tls_alert_code := none } }

/-- RDCleanPathPdu::new_http_error, translated from the source. -/
def RDCleanPathPdu.new_http_error (status_code : Nat) : RDCleanPathPdu :=
  { RDCleanPathPdu.default with
    version := VERSION_1
    error := some
      { error_code := 1
        http_status_code := some status_code
        wsa_last_error := none
        tls_alert_code := none } }

/-- RDCleanPathPdu::new_wsa_error, translated from the source. -/
def RDCleanPathPdu.new_wsa_error (wsa_error_code : Nat) : RDCleanPathPdu :=
  { RDCleanPathPdu.default with
    version := VERSION_1
    error := some
      { error_code := 1
        http_status_code := none
        wsa_last_error := some wsa_error_code
        tls_alert_code := none } }

/-- RDCleanPathPdu::new_tls_error, translated from the source. -/
def RDCleanPathPdu.new_tls_error (alert_code : Nat) : RDCleanPathPdu :=
  { RDCleanPathPdu.default with
    version := VERSION_1
    error := some
      { error_code := 1
        http_status_code := none
        wsa_last_error := none
        tls_alert_code := some alert_code } }

/-- The request sample from the source test module. -/
def requestSample : RDCleanPathPdu :=
  RDCleanPathPdu.new_request [0xDE, 0xAD, 0xBE, 0xFF]
    [0x64, 0x65, 0x73, 0x74, 0x69, 0x6E, 0x61, 0x74, 0x69, 0x6F, 0x6E]
    [0x70, 0x72, 0x6F, 0x78, 0x79, 0x20, 0x61, 0x75, 0x74, 0x68]
    (some [0x50, 0x43, 0x42])

/-- The serialized request bytes recorded in the source test module. -/
def REQUEST_DER : Bytes :=
  [0x30, 0x32, 0xA0, 0x4, 0x2, 0x2, 0xD, 0x3E, 0xA2, 0xD, 0xC, 0xB, 0x64,
   0x65, 0x73, 0x74, 0x69, 0x6E, 0x61, 0x74, 0x69, 0x6F, 0x6E, 0xA3, 0xC,
   0xC, 0xA, 0x70, 0x72, 0x6F, 0x78, 0x79, 0x20, 0x61, 0x75, 0x74, 0x68,
   0xA5, 0x5, 0xC, 0x3, 0x50, 0x43, 0x42, 0xA6, 0x6, 0x4, 0x4, 0xDE, 0xAD,
   0xBE, 0xFF]

/-- The success-response sample from the source test module. -/
def responseSuccessSample : RDCleanPathPdu :=
  RDCleanPathPdu.new_response
    [0x31, 0x39, 0x32, 0x2E, 0x31, 0x36, 0x38, 0x2E, 0x37, 0x2E, 0x39, 0x35]
    [0xDE, 0xAD, 0xBE, 0xFF]
    [[0xDE, 0xAD, 0xBE, 0xFF], [0xDE, 0xAD, 0xBE, 0xFF], [0xDE, 0xAD, 0xBE, 0xFF]]

/-- The serialized success-response bytes recorded in the source test module. -/
def RESPONSE_SUCCESS_DER : Bytes :=
  [0x30, 0x34, 0xA0, 0x4, 0x2, 0x2, 0xD, 0x3E, 0xA6, 0x6, 0x4, 0x4, 0xDE,
   0xAD, 0xBE, 0xFF, 0xA7, 0x14, 0x30, 0x12, 0x4, 0x4, 0xDE, 0xAD, 0xBE,
   0xFF, 0x4, 0x4, 0xDE, 0xAD, 0xBE, 0xFF, 0x4, 0x4, 0xDE, 0xAD, 0xBE, 0xFF,
   0xA9, 0xE, 0xC, 0xC, 0x31, 0x39, 0x32, 0x2E, 0x31, 0x36, 0x38, 0x2E,
   0x37, 0x2E, 0x39, 0x35]

/-- The serialized http-error bytes recorded in the source test module. -/
def RESPONSE_HTTP_ERROR_DER : Bytes :=
  [0x30, 0x15, 0xA0, 0x4, 0x2, 0x2, 0xD, 0x3E, 0xA1, 0xD, 0x30, 0xB, 0xA0,
   0x3, 0x2, 0x1, 0x1, 0xA1, 0x4, 0x2, 0x2, 0x1, 0xF4]

/-- The serialized tls-error bytes recorded in the source test module. -/
def RESPONSE_TLS_ERROR_DER : Bytes :=
  [0x30, 0x14, 0xA0, 0x04, 0x02, 0x02, 0x0D, 0x3E, 0xA1, 0x0C, 0x30, 0x0A,
   0xA0, 0x03, 0x02, 0x01, 0x01, 0xA3, 0x03, 0x02, 0x01, 0x30]

/-- The modelled encoder reproduces the request test vector byte for byte. -/
theorem to_der_request_vector : requestSample.to_der = REQUEST_DER := by decide

/-- The modelled encoder reproduces the response test vector byte for byte. -/
theorem to_der_response_vector :
    responseSuccessSample.to_der = RESPONSE_SUCCESS_DER := by decide

/-- The modelled encoder reproduces the http-error test vector byte for byte. -/
theorem to_der_http_error_vector :
    (RDCleanPathPdu.new_http_error 500).to_der = RESPONSE_HTTP_ERROR_DER := by decide

/-- The modelled encoder reproduces the tls-error test vector byte for byte. -/
theorem to_der_tls_error_vector :
    (RDCleanPathPdu.new_tls_error 48).to_der = RESPONSE_TLS_ERROR_DER := by decide

/-- A message produced by one of the six construction recipes, with the
constructor arguments inside their machine-integer ranges (u16 status and
wsa codes, u8 tls alert). -/
def IsRecipe (m : RDCleanPathPdu) : Prop :=
  (∃ x d p pcb, m = RDCleanPathPdu.new_request x d p pcb) ∨
  (∃ a x ch, m = RDCleanPathPdu.new_response a x ch) ∨
  m = RDCleanPathPdu.new_general_error ∨
  (∃ s, s ≤ U16_MAX ∧ m = RDCleanPathPdu.new_http_error s) ∨
  (∃ w, w ≤ U16_MAX ∧ m = RDCleanPathPdu.new_wsa_error w) ∨
  (∃ a, a ≤ U8_MAX ∧ m = RDCleanPathPdu.new_tls_error a)

theorem version_le_u64 : VERSION_1 ≤ U64_MAX := by decide

theorem IsRecipe.wf (m : RDCleanPathPdu) (h : IsRecipe m) : wfPdu m := by
  rcases h with ⟨x, d, p, pcb, rfl⟩ | ⟨a, x, ch, rfl⟩ | rfl |
    ⟨s, hs, rfl⟩ | ⟨w, hw, rfl⟩ | ⟨a, ha, rfl⟩
  · exact ⟨version_le_u64, by intro e he; simp [RDCleanPathPdu.new_request,
      RDCleanPathPdu.default] at he⟩
  · exact ⟨version_le_u64, by intro e he; simp [RDCleanPathPdu.new_response,
      RDCleanPathPdu.default] at he⟩
  · refine ⟨version_le_u64, ?_⟩
    intro e he
    simp [RDCleanPathPdu.new_general_error, RDCleanPathPdu.default] at he
    rw [← he]
    exact ⟨show (1:Nat) ≤ U16_MAX by decide, trivial, trivial, trivial⟩
  · refine ⟨version_le_u64, ?_⟩
    intro e he
    simp [RDCleanPathPdu.new_http_error, RDCleanPathPdu.default] at he
    rw [← he]
    exact ⟨show (1:Nat) ≤ U16_MAX by decide, hs, trivial, trivial⟩
  · refine ⟨version_le_u64, ?_⟩
    intro e he
    simp [RDCleanPathPdu.new_wsa_error, RDCleanPathPdu.default] at he
    rw [← he]
    exact ⟨show (1:Nat) ≤ U16_MAX by decide, trivial, hw, trivial⟩
  · refine ⟨version_le_u64, ?_⟩
    intro e he
    simp [RDCleanPathPdu.new_tls_error, RDCleanPathPdu.default] at he
    rw [← he]
    exact ⟨show (1:Nat) ≤ U16_MAX by decide, trivial, trivial, ha⟩

theorem decode_to_der_append (m : RDCleanPathPdu) (hm : wfPdu m)
    (rest : Bytes) (cap : Nat) :
    RDCleanPathPdu.decode ⟨m.to_der ++ rest, cap⟩ =
      (.ok (some m), ⟨rest, cap - m.to_der.length⟩) := by
  rw [RDCleanPathPdu.decode]
  simp only [fromDer_encode m hm rest]
  rw [BytesMut.advance]
  simp

/-- Claim C1: every message produced by a construction recipe survives a
serialize-then-decode round trip: decode on a buffer holding exactly
to_der(m) succeeds, returns m, and consumes the whole buffer. -/
theorem claim_C1_roundtrip (m : RDCleanPathPdu) (cap : Nat) (h : IsRecipe m) :
    RDCleanPathPdu.decode ⟨m.to_der, cap⟩ =
      (.ok (some m), ⟨[], cap - m.to_der.length⟩) := by
  have := decode_to_der_append m (IsRecipe.wf m h) [] cap
  simpa using this

/-- Witness for C1 at the general-error recipe. -/
theorem claim_C1_roundtrip_witness :
    IsRecipe RDCleanPathPdu.new_general_error ∧
      RDCleanPathPdu.decode ⟨RDCleanPathPdu.new_general_error.to_der, 17⟩ =
        (.ok (some RDCleanPathPdu.new_general_error),
          ⟨[], 17 - RDCleanPathPdu.new_general_error.to_der.length⟩) :=
  have hrec : IsRecipe RDCleanPathPdu.new_general_error :=
    Or.inr (Or.inr (Or.inl rfl))
  ⟨hrec, claim_C1_roundtrip RDCleanPathPdu.new_general_error 17 hrec⟩

/-- Claim C2: on a buffer holding two back-to-back recipe-built messages,
the first decode returns the first message and removes exactly its bytes,
leaving the second untouched, and a second decode returns the second
message. -/
theorem claim_C2_exact_consumption (m1 m2 : RDCleanPathPdu) (cap : Nat)
    (h1 : IsRecipe m1) (h2 : IsRecipe m2) :
    RDCleanPathPdu.decode ⟨m1.to_der ++ m2.to_der, cap⟩ =
      (.ok (some m1), ⟨m2.to_der, cap - m1.to_der.length⟩) ∧
    RDCleanPathPdu.decode ⟨m2.to_der, cap - m1.to_der.length⟩ =
      (.ok (some m2), ⟨[], cap - m1.to_der.length - m2.to_der.length⟩) := by
  constructor
  · exact decode_to_der_append m1 (IsRecipe.wf m1 h1) m2.to_der cap
  · have := decode_to_der_append m2 (IsRecipe.wf m2 h2) []
      (cap - m1.to_der.length)
    simpa using this

/-- Witness for C2 at the http-error and tls-error recipes. -/
theorem claim_C2_exact_consumption_witness :
    IsRecipe (RDCleanPathPdu.new_http_error 500) ∧
    IsRecipe (RDCleanPathPdu.new_tls_error 48) ∧
    (RDCleanPathPdu.decode
        ⟨(RDCleanPathPdu.new_http_error 500).to_der ++
          (RDCleanPathPdu.new_tls_error 48).to_der, 45⟩ =
      (.ok (some (RDCleanPathPdu.new_http_error 500)),
        ⟨(RDCleanPathPdu.new_tls_error 48).to_der,
          45 - (RDCleanPathPdu.new_http_error 500).to_der.length⟩) ∧
    RDCleanPathPdu.decode
        ⟨(RDCleanPathPdu.new_tls_error 48).to_der,
          45 - (RDCleanPathPdu.new_http_error 500).to_der.length⟩ =
      (.ok (some (RDCleanPathPdu.new_tls_error 48)),
        ⟨[], 45 - (RDCleanPathPdu.new_http_error 500).to_der.length -
          (RDCleanPathPdu.new_tls_error 48).to_der.length⟩)) :=
  have hh : IsRecipe (RDCleanPathPdu.new_http_error 500) :=
    Or.inr (Or.inr (Or.inr (Or.inl ⟨500, by decide, rfl⟩)))
  have ht : IsRecipe (RDCleanPathPdu.new_tls_error 48) :=
    Or.inr (Or.inr (Or.inr (Or.inr (Or.inr ⟨48, by decide, rfl⟩))))
  ⟨hh, ht, claim_C2_exact_consumption _ _ 45 hh ht⟩

/-- Claim C4: when the full-schema decoder reports a truncated buffer,
decode reports not-yet-available (ok none), leaves the data untouched and
grows the capacity to at least the total length the decoder expects; any
other decoder failure is propagated as a fatal error with the buffer
untouched. -/
theorem claim_C4_incomplete_handling (src : BytesMut) (e a : Nat) :
    (fromDer src.data = .error (.incomplete e a) →
      RDCleanPathPdu.decode src =
        (.ok none, src.reserve (e - src.data.length)) ∧
      (RDCleanPathPdu.decode src).2.data = src.data ∧
      e ≤ (RDCleanPathPdu.decode src).2.cap) ∧
    (fromDer src.data = .error .malformed →
      RDCleanPathPdu.decode src = (.error .malformed, src)) := by
  constructor
  · intro h
    have hgt : src.data.length < e := fromDer_incomplete_gt src.data e a h
    have hd : RDCleanPathPdu.decode src =
        (.ok none, src.reserve (e - src.data.length)) := by
      rw [RDCleanPathPdu.decode]
      simp only [h]
    refine ⟨hd, ?_, ?_⟩
    · rw [hd, BytesMut.reserve]
    · rw [hd, BytesMut.reserve]
      simp only
      have : src.data.length + (e - src.data.length) = e := by omega
      rw [this]
      exact le_max_right _ _
  · intro h
    rw [RDCleanPathPdu.decode]
    simp only [h]

/-- Witness for C4: a truncated header and a wrong-tag buffer. -/
theorem claim_C4_incomplete_handling_witness :
    (RDCleanPathPdu.decode ⟨[0x30, 0x15], 2⟩ =
        (.ok none, BytesMut.reserve ⟨[0x30, 0x15], 2⟩ (23 - 2)) ∧
      (RDCleanPathPdu.decode ⟨[0x30, 0x15], 2⟩).2.data = [0x30, 0x15] ∧
      23 ≤ (RDCleanPathPdu.decode ⟨[0x30, 0x15], 2⟩).2.cap) ∧
    RDCleanPathPdu.decode ⟨[0x05, 0x00], 7⟩ =
      (.error .malformed, ⟨[0x05, 0x00], 7⟩) := by
  constructor
  · have h := (claim_C4_incomplete_handling ⟨[0x30, 0x15], 2⟩ 23 2).1 (by decide)
    exact ⟨h.1, h.2.1, h.2.2⟩
  · exact (claim_C4_incomplete_handling ⟨[0x05, 0x00], 7⟩ 0 0).2 (by decide)

theorem reducedFromDer_to_der (m : RDCleanPathPdu) (hv : m.version ≤ U64_MAX) :
    reducedFromDer m.to_der = .ok m.version := by
  rw [RDCleanPathPdu.to_der, reducedFromDer]
  rw [show tlv 48 (pduContent m) =
    48 :: (encodeLen (pduContent m).length ++ pduContent m) from rfl]
  rw [parseHeader_encode]
  simp only [if_pos rfl]
  rw [pduContent_eq]
  rw [show (ctxTLV 0 (intTLV m.version) : Bytes) = tlv 160 (intTLV m.version) from rfl]
  rw [splitTLV_encode]
  simp only [if_pos rfl]
  rw [show (intTLV m.version : Bytes) = tlv 2 (encodeUInt m.version) ++ [] by
    simp [intTLV]]
  rw [splitTLVin_encode]
  simp [parseUInt_encode U64_MAX m.version hv]

/-- Claim C3: detect reports NotEnoughBytes exactly when the reduced-schema
decoder reports a truncated buffer; a Detected version is always the
supported one; and on the full encoding of any recipe-built message detect
reports Detected VERSION_1. -/
theorem claim_C3_detect (b : Bytes) (m : RDCleanPathPdu) (v : Nat)
    (hm : IsRecipe m) :
    (RDCleanPathPdu.detect b = .NotEnoughBytes ↔
      ∃ e a, reducedFromDer b = .error (.incomplete e a)) ∧
    (RDCleanPathPdu.detect b = .Detected v → v = VERSION_1) ∧
    RDCleanPathPdu.detect m.to_der = .Detected VERSION_1 := by
  refine ⟨?_, ?_, ?_⟩
  · rw [RDCleanPathPdu.detect]
    cases hr : reducedFromDer b with
    | ok v' =>
      simp only
      by_cases hv : v' = VERSION_1
      · rw [if_pos hv]
        simp
      · rw [if_neg hv]
        simp
    | error e' =>
      cases e' with
      | incomplete e2 a2 => simp
      | malformed => simp
  · rw [RDCleanPathPdu.detect]
    cases hr : reducedFromDer b with
    | ok v' =>
      simp only
      by_cases hv : v' = VERSION_1
      · rw [if_pos hv]
        intro h
        cases h
        exact hv
      · rw [if_neg hv]
        intro h
        cases h
    | error e' =>
      cases e' with
      | incomplete e2 a2 => intro h; cases h
      | malformed => intro h; cases h
  · have hver : m.version = VERSION_1 := by
      rcases hm with ⟨x, d, p, pcb, rfl⟩ | ⟨a, x, ch, rfl⟩ | rfl |
        ⟨s, _, rfl⟩ | ⟨w, _, rfl⟩ | ⟨a, _, rfl⟩ <;> rfl
    have := reducedFromDer_to_der m (hver ▸ version_le_u64)
    rw [RDCleanPathPdu.detect, this, hver]
    simp

/-- Witness for C3 at a one-byte buffer and the general-error recipe. -/
theorem claim_C3_detect_witness :
    (RDCleanPathPdu.detect [0x30] = .NotEnoughBytes ↔
      ∃ e a, reducedFromDer [0x30] = .error (.incomplete e a)) ∧
    (RDCleanPathPdu.detect [0x30] = .Detected 3390 → (3390 : Nat) = VERSION_1) ∧
    RDCleanPathPdu.detect RDCleanPathPdu.new_general_error.to_der =
      .Detected VERSION_1 :=
  claim_C3_detect [0x30] RDCleanPathPdu.new_general_error 3390
    (Or.inr (Or.inr (Or.inl rfl)))

/-- The payload fields a pure error message must not carry. -/
def noPayloadFields (m : RDCleanPathPdu) : Prop :=
  m.destination = none ∧ m.proxy_auth = none ∧ m.server_auth = none ∧
    m.preconnection_blob = none ∧ m.x224_connection_pdu = none ∧
    m.server_cert_chain = none ∧ m.server_addr = none

/-- Claim C8: every error constructor yields error_code 1, exactly the one
optional error field matching the constructor (none for the general error),
the supported version, and no payload fields. -/
theorem claim_C8_error_shapes (s w a : Nat) :
    (RDCleanPathPdu.new_general_error.version = VERSION_1 ∧
      RDCleanPathPdu.new_general_error.error = some ⟨1, none, none, none⟩ ∧
      noPayloadFields RDCleanPathPdu.new_general_error) ∧
    ((RDCleanPathPdu.new_http_error s).version = VERSION_1 ∧
      (RDCleanPathPdu.new_http_error s).error = some ⟨1, some s, none, none⟩ ∧
      noPayloadFields (RDCleanPathPdu.new_http_error s)) ∧
    ((RDCleanPathPdu.new_wsa_error w).version = VERSION_1 ∧
      (RDCleanPathPdu.new_wsa_error w).error = some ⟨1, none, some w, none⟩ ∧
      noPayloadFields (RDCleanPathPdu.new_wsa_error w)) ∧
    ((RDCleanPathPdu.new_tls_error a).version = VERSION_1 ∧
      (RDCleanPathPdu.new_tls_error a).error = some ⟨1, none, none, some a⟩ ∧
      noPayloadFields (RDCleanPathPdu.new_tls_error a)) :=
  ⟨⟨rfl, rfl, rfl, rfl, rfl, rfl, rfl, rfl, rfl⟩,
   ⟨rfl, rfl, rfl, rfl, rfl, rfl, rfl, rfl, rfl⟩,
   ⟨rfl, rfl, rfl, rfl, rfl, rfl, rfl, rfl, rfl⟩,
   ⟨rfl, rfl, rfl, rfl, rfl, rfl, rfl, rfl, rfl⟩⟩

/-!
Part 2: the input-state database from src/ironrdp-input/src/lib.rs.

The wire event types (FastPathInputEvent, MousePdu, MouseXPdu and the flag
bitmasks) live in the external ironrdp-core crate; they are modelled from
the spec as records of the named flag bits the translator sets.
-/

/-- A mouse button number, translated from the source: a wrapped u8, values
above X2 (4) are the unknown range. -/
structure MouseButton where
  val : Nat
deriving DecidableEq

/-- MouseButton::LEFT. -/
def MouseButton.LEFT : MouseButton := ⟨0⟩

/-- MouseButton::MIDDLE. -/
def MouseButton.MIDDLE : MouseButton := ⟨1⟩

/-- MouseButton::RIGHT. -/
def MouseButton.RIGHT : MouseButton := ⟨2⟩

/-- MouseButton::X1. -/
def MouseButton.X1 : MouseButton := ⟨3⟩

/-- MouseButton::X2. -/
def MouseButton.X2 : MouseButton := ⟨4⟩

/-- MouseButton::is_unknown, translated from the source. -/
def MouseButton.is_unknown (b : MouseButton) : Bool := 4 < b.val

/-- MouseButton::as_idx, translated from the source. -/
def MouseButton.as_idx (b : MouseButton) : Nat := b.val

/-- A keyboard scancode, translated from the source: a u8 code plus the
extended flag. -/
structure Scancode where
  code : Nat
  extended : Bool
deriving DecidableEq

/-- Scancode::as_idx, translated from the source: the flattened state-array
index. -/
def Scancode.as_idx (sc : Scancode) : Nat :=
  if sc.extended then sc.code + 256 else sc.code

/-- Cursor position, translated from the source (u16 coordinates). -/
structure MousePosition where
  x : Nat
  y : Nat
deriving DecidableEq

/-- Mouse wheel rotations, translated from the source (i16 units). -/
structure WheelRotations where
  is_vertical : Bool
  rotation_units : Int
deriving DecidableEq

/-- Modelled from the spec: the legacy pointer-event flag bits the
translator uses (down, move, the three button identities, the two wheel
axes), as named booleans of the PointerFlags bitmask. -/
structure PointerFlags where
  down : Bool := false
  move : Bool := false
  left_button : Bool := false
  middle_button_or_wheel : Bool := false
  right_button : Bool := false
  vertical_wheel : Bool := false
  horizontal_wheel : Bool := false
deriving DecidableEq

/-- PointerFlags::DOWN. -/
def PointerFlags.DOWN : PointerFlags := { down := true }

/-- PointerFlags::MOVE. -/
def PointerFlags.MOVE : PointerFlags := { move := true }

/-- PointerFlags::LEFT_BUTTON. -/
def PointerFlags.LEFT_BUTTON : PointerFlags := { left_button := true }

/-- PointerFlags::MIDDLE_BUTTON_OR_WHEEL. -/
def PointerFlags.MIDDLE_BUTTON_OR_WHEEL : PointerFlags :=
  { middle_button_or_wheel := true }

/-- PointerFlags::RIGHT_BUTTON. -/
def PointerFlags.RIGHT_BUTTON : PointerFlags := { right_button := true }

/-- PointerFlags::VERTICAL_WHEEL. -/
def PointerFlags.VERTICAL_WHEEL : PointerFlags := { vertical_wheel := true }

/-- PointerFlags::HORIZONTAL_WHEEL. -/
def PointerFlags.HORIZONTAL_WHEEL : PointerFlags := { horizontal_wheel := true }

/-- The empty PointerFlags bitmask. -/
def PointerFlags.empty : PointerFlags := {}

/-- Bitwise union of two PointerFlags values. -/
def PointerFlags.union (f g : PointerFlags) : PointerFlags :=
  { down := f.down || g.down
    move := f.move || g.move
    left_button := f.left_button || g.left_button
    middle_button_or_wheel := f.middle_button_or_wheel || g.middle_button_or_wheel
    right_button := f.right_button || g.right_button
    vertical_wheel := f.vertical_wheel || g.vertical_wheel
    horizontal_wheel := f.horizontal_wheel || g.horizontal_wheel }

/-- Modelled from the spec: the extended pointer-event flag bits (down and
the two extended button identities), as named booleans of the PointerXFlags
bitmask. -/
structure PointerXFlags where
  down : Bool := false
  button1 : Bool := false
  button2 : Bool := false
deriving DecidableEq

/-- PointerXFlags::DOWN. -/
def PointerXFlags.DOWN : PointerXFlags := { down := true }

/-- PointerXFlags::BUTTON1. -/
def PointerXFlags.BUTTON1 : PointerXFlags := { button1 := true }

/-- PointerXFlags::BUTTON2. -/
def PointerXFlags.BUTTON2 : PointerXFlags := { button2 := true }

/-- Bitwise union of two PointerXFlags values. -/
def PointerXFlags.union (f g : PointerXFlags) : PointerXFlags :=
  { down := f.down || g.down
    button1 := f.button1 || g.button1
    button2 := f.button2 || g.button2 }

/-- Modelled from the spec: keyboard event flag bits (release, extended). -/
structure KeyboardFlags where
  release : Bool := false
  extended : Bool := false
deriving DecidableEq

/-- Modelled from the spec: lock-key synchronization flag bits. -/
structure SynchronizeFlags where
  scroll_lock : Bool := false
  num_lock : Bool := false
  caps_lock : Bool := false
  kana_lock : Bool := false
deriving DecidableEq

/-- Modelled from the spec: the legacy pointer event shape
{flags, wheel units, x, y}. -/
structure MousePdu where
  flags : PointerFlags
  number_of_wheel_rotation_units : Int
  x_position : Nat
  y_position : Nat
deriving DecidableEq

/-- Modelled from the spec: the extended pointer event shape {flags, x, y}. -/
structure MouseXPdu where
  flags : PointerXFlags
  x_position : Nat
  y_position : Nat
deriving DecidableEq

/-- Modelled from the spec: the produced wire input events. -/
inductive FastPathInputEvent where
  | MouseEvent (pdu : MousePdu)
  | MouseEventEx (pdu : MouseXPdu)
  | KeyboardEvent (flags : KeyboardFlags) (code : Nat)
  | SyncEvent (flags : SynchronizeFlags)
deriving DecidableEq

/-- The Operation intents, translated from the source. -/
inductive Operation where
  | MouseButtonPressed (button : MouseButton)
  | MouseButtonReleased (button : MouseButton)
  | MouseMove (position : MousePosition)
  | WheelRotations (rotations : WheelRotations)
  | KeyPressed (scancode : Scancode)
  | KeyReleased (scancode : Scancode)
deriving DecidableEq

/-- The per-button event-shape selection MouseButtonFlags, translated from
the source. -/
inductive MouseButtonFlags where
  | Button (flags : PointerFlags)
  | Pointer (flags : PointerXFlags)
deriving DecidableEq

/-- MouseButtonFlags::from, translated from the source: the fixed mapping
from button identity to event shape and button flag. -/
def MouseButtonFlags.from (b : MouseButton) : MouseButtonFlags :=
  if b.val = 0 then .Button PointerFlags.LEFT_BUTTON
  else if b.val = 1 then .Button PointerFlags.MIDDLE_BUTTON_OR_WHEEL
  else if b.val = 2 then .Button PointerFlags.RIGHT_BUTTON
  else if b.val = 3 then .Pointer PointerXFlags.BUTTON1
  else if b.val = 4 then .Pointer PointerXFlags.BUTTON2
  else .Button PointerFlags.empty

/-- The in-memory input database, translated from the source: the two
bitsets are lists of booleans (512 keyboard slots, 5 button slots at the
new state). -/
structure Database where
  keyboard : List Bool
  mouse_buttons : List Bool
  mouse_position : MousePosition
deriving DecidableEq

/-- Database::new, translated from the source: all-zero state, origin
cursor. -/
def Database.new : Database :=
  { keyboard := List.replicate 512 false
    mouse_buttons := List.replicate 5 false
    mouse_position := ⟨0, 0⟩ }

/-- BitSlice::replace: return the old bit and the updated bitset, or none
when the index is out of bounds (the source panics there). -/
def bitReplace (l : List Bool) (i : Nat) (v : Bool) : Option (Bool × List Bool) :=
  match l[i]? with
  | some old => some (old, l.set i v)
  | none => none

/-- Database::is_key_pressed, translated from the source: out-of-range
lookups read as false. -/
def Database.is_key_pressed (db : Database) (sc : Scancode) : Bool :=
  (db.keyboard[sc.as_idx]?).getD false

/-- Database::is_mouse_button_pressed, translated from the source. -/
def Database.is_mouse_button_pressed (db : Database) (b : MouseButton) : Bool :=
  (db.mouse_buttons[b.as_idx]?).getD false

/-- Database::mouse_position, translated from the source. -/
def Database.mouse_position_of (db : Database) : MousePosition := db.mouse_position

/-- One step of Database::apply for a single operation, translated from the
source loop body. Returns none exactly when a bitset access is out of
bounds (where the source would panic). -/
def applyOp (db : Database) (op : Operation) :
    Option (List FastPathInputEvent × Database) :=
  match op with
  | .MouseButtonPressed button =>
    if button.is_unknown then some ([], db)
    else
      (bitReplace db.mouse_buttons button.as_idx true).map fun wb =>
        let db' := { db with mouse_buttons := wb.2 }
        if wb.1 then ([], db')
        else
          let ev := match MouseButtonFlags.from button with
            | .Button flags => FastPathInputEvent.MouseEvent
                { flags := PointerFlags.DOWN.union flags
                  number_of_wheel_rotation_units := 0
                  x_position := db.mouse_position.x
                  y_position := db.mouse_position.y }
            | .Pointer flags => FastPathInputEvent.MouseEventEx
                { flags := PointerXFlags.DOWN.union flags
                  x_position := db.mouse_position.x
                  y_position := db.mouse_position.y }
          ([ev], db')
  | .MouseButtonReleased button =>
    if button.is_unknown then some ([], db)
    else
      (bitReplace db.mouse_buttons button.as_idx false).map fun wb =>
        let db' := { db with mouse_buttons := wb.2 }
        if wb.1 then
          let ev := match MouseButtonFlags.from button with
            | .Button flags => FastPathInputEvent.MouseEvent
                { flags := flags
                  number_of_wheel_rotation_units := 0
                  x_position := db.mouse_position.x
                  y_position := db.mouse_position.y }
            | .Pointer flags => FastPathInputEvent.MouseEventEx
                { flags := flags
                  x_position := db.mouse_position.x
                  y_position := db.mouse_position.y }
          ([ev], db')
        else ([], db')
  | .MouseMove position =>
    if position ≠ db.mouse_position then
      some ([FastPathInputEvent.MouseEvent
        { flags := PointerFlags.MOVE
          number_of_wheel_rotation_units := 0
          x_position := position.x
          y_position := position.y }],
        { db with mouse_position := position })
    else some ([], db)
  | .WheelRotations rotations =>
    some ([FastPathInputEvent.MouseEvent
      { flags := if rotations.is_vertical then PointerFlags.VERTICAL_WHEEL
          else PointerFlags.HORIZONTAL_WHEEL
        number_of_wheel_rotation_units := rotations.rotation_units
        x_position := db.mouse_position.x
        y_position := db.mouse_position.y }], db)
  | .KeyPressed scancode =>
    (bitReplace db.keyboard scancode.as_idx true).map fun wb =>
      let flags : KeyboardFlags := { extended := scancode.extended }
      let evs :=
        (if wb.1 then
          [FastPathInputEvent.KeyboardEvent { flags with release := true }
            scancode.code]
        else []) ++
        [FastPathInputEvent.KeyboardEvent flags scancode.code]
      (evs, { db with keyboard := wb.2 })
  | .KeyReleased scancode =>
    (bitReplace db.keyboard scancode.as_idx false).map fun wb =>
      let flags : KeyboardFlags := { release := true, extended := scancode.extended }
      let evs :=
        if wb.1 then [FastPathInputEvent.KeyboardEvent flags scancode.code]
        else []
      (evs, { db with keyboard := wb.2 })

/-- Database::apply, translated from the source: fold the operations in
order, concatenating the produced events. -/
def Database.apply (db : Database) (transaction : List Operation) :
    Option (List FastPathInputEvent × Database) :=
  match transaction with
  | [] => some ([], db)
  | op :: rest =>
    (applyOp db op).bind fun ed =>
      (Database.apply ed.2 rest).map fun ed' => (ed.1 ++ ed'.1, ed'.2)

/-- Indices of the set bits of a bitset, in ascending order (iter_ones). -/
def iterOnes : List Bool → List Nat
  | [] => []
  | b :: rest => (if b then [0] else []) ++ (iterOnes rest).map (· + 1)

/-- The release event for a still-pressed mouse button, translated from the
source release_all loop body. -/
def releaseButtonEvent (pos : MousePosition) (idx : Nat) : FastPathInputEvent :=
  match MouseButtonFlags.from ⟨idx⟩ with
  | .Button flags => .MouseEvent
      { flags := flags
        number_of_wheel_rotation_units := 0
        x_position := pos.x
        y_position := pos.y }
  | .Pointer flags => .MouseEventEx
      { flags := flags
        x_position := pos.x
        y_position := pos.y }

/-- The release event for a still-pressed key, translated from the source
release_all loop body: indices at 256 and above are the extended plane. -/
def releaseKeyEvent (idx : Nat) : FastPathInputEvent :=
  if 256 ≤ idx then
    .KeyboardEvent { release := true, extended := true } (idx - 256)
  else
    .KeyboardEvent { release := true, extended := false } idx

/-- Database::release_all, translated from the source: one release event per
set button bit then per set key bit, in ascending index order, then both
bitsets are cleared to the fixed all-zero state. -/
def Database.release_all (db : Database) :
    List FastPathInputEvent × Database :=
  ((iterOnes db.mouse_buttons).map (releaseButtonEvent db.mouse_position) ++
    (iterOnes db.keyboard).map releaseKeyEvent,
   { keyboard := List.replicate 512 false
     mouse_buttons := List.replicate 5 false
     mouse_position := db.mouse_position })

/-- synchronize_event, translated from the source. -/
def synchronize_event (scroll_lock num_lock caps_lock kana_lock : Bool) :
    FastPathInputEvent :=
  .SyncEvent
    { scroll_lock := scroll_lock
      num_lock := num_lock
      caps_lock := caps_lock
      kana_lock := kana_lock }

theorem iterOnes_nil : iterOnes [] = [] := rfl

theorem iterOnes_replicate_false (n : Nat) :
    iterOnes (List.replicate n false) = [] := by
  induction n with
  | zero => rfl
  | succ m ih => simp [List.replicate, iterOnes, ih]

theorem iterOnes_length (l : List Bool) :
    (iterOnes l).length = l.count true := by
  induction l with
  | nil => simp [iterOnes]
  | cons b rest ih => cases b <;> simp [iterOnes, ih, List.count_cons]

theorem iterOnes_mem (l : List Bool) (i : Nat) :
    i ∈ iterOnes l ↔ l[i]? = some true := by
  induction l generalizing i with
  | nil => simp [iterOnes]
  | cons b rest ih =>
    cases i with
    | zero => cases b <;> simp [iterOnes]
    | succ j =>
      cases b <;> simp [iterOnes, ih j]

theorem iterOnes_sorted (l : List Bool) :
    List.Sorted (· < ·) (iterOnes l) := by
  induction l with
  | nil => simp [iterOnes]
  | cons b rest ih =>
    rw [iterOnes]
    have hmap : List.Sorted (· < ·) ((iterOnes rest).map (· + 1)) := by
      refine List.Pairwise.map _ ?_ ih
      intro a c hac
      omega
    cases b with
    | false => simpa using hmap
    | true =>
      simp only [if_true, eq_self_iff_true, List.singleton_append]
      rw [List.sorted_cons]
      refine ⟨?_, hmap⟩
      intro x hx
      simp only [List.mem_map] at hx
      obtain ⟨y, _, rfl⟩ := hx
      omega

/-- Claim C5: release_all emits exactly one release event per still-set
button bit then per still-set key bit, in ascending index order (a set bit
at index i is exactly membership of i in the scan), key releases at indices
256 and above carry the extended flag, afterwards both bitsets are
all-zero with the cursor preserved, and an immediate second release_all
emits no event. -/
theorem claim_C5_release_all (db : Database) :
    db.release_all.1 =
      (iterOnes db.mouse_buttons).map (releaseButtonEvent db.mouse_position) ++
        (iterOnes db.keyboard).map releaseKeyEvent ∧
    db.release_all.1.length =
      db.mouse_buttons.count true + db.keyboard.count true ∧
    (∀ i, i ∈ iterOnes db.mouse_buttons ↔ db.mouse_buttons[i]? = some true) ∧
    (∀ i, i ∈ iterOnes db.keyboard ↔ db.keyboard[i]? = some true) ∧
    List.Sorted (· < ·) (iterOnes db.mouse_buttons) ∧
    List.Sorted (· < ·) (iterOnes db.keyboard) ∧
    (∀ i, releaseKeyEvent (i + 256) =
      .KeyboardEvent { release := true, extended := true } i) ∧
    db.release_all.2.keyboard = List.replicate 512 false ∧
    db.release_all.2.mouse_buttons = List.replicate 5 false ∧
    db.release_all.2.mouse_position = db.mouse_position ∧
    db.release_all.2.release_all.1 = [] := by
  refine ⟨rfl, ?_, fun i => iterOnes_mem _ i, fun i => iterOnes_mem _ i,
    iterOnes_sorted _, iterOnes_sorted _, ?_, rfl, rfl, rfl, ?_⟩
  · rw [show db.release_all.1 =
      (iterOnes db.mouse_buttons).map (releaseButtonEvent db.mouse_position) ++
        (iterOnes db.keyboard).map releaseKeyEvent from rfl]
    rw [List.length_append, List.length_map, List.length_map,
      iterOnes_length, iterOnes_length]
  · intro i
    rw [releaseKeyEvent, if_pos (by omega)]
    simp
  · rw [show db.release_all.2.release_all.1 =
      (iterOnes (List.replicate 5 false)).map
        (releaseButtonEvent db.mouse_position) ++
        (iterOnes (List.replicate 512 false)).map releaseKeyEvent from rfl]
    rw [iterOnes_replicate_false, iterOnes_replicate_false]
    rfl

theorem list_set_getElem_eq {α : Type} (l : List α) (i : Nat) (a : α)
    (h : l[i]? = some a) : l.set i a = l := by
  induction l generalizing i with
  | nil => simp at h
  | cons x xs ih =>
    cases i with
    | zero =>
      simp at h
      simp [h]
    | succ j =>
      simp at h
      simp [ih j h]

theorem bitReplace_eq (l : List Bool) (i : Nat) (v old : Bool)
    (h : l[i]? = some old) : bitReplace l i v = some (old, l.set i v) := by
  rw [bitReplace, h]

theorem apply_nil (db : Database) : Database.apply db [] = some ([], db) := rfl

theorem apply_single (db : Database) (op : Operation) :
    Database.apply db [op] = applyOp db op := by
  rw [Database.apply]
  cases h : applyOp db op with
  | none => rfl
  | some ed => simp [apply_nil]

theorem apply_pair (db : Database) (op1 op2 : Operation) :
    Database.apply db [op1, op2] =
      (applyOp db op1).bind fun ed =>
        (applyOp ed.2 op2).map fun ed' => (ed.1 ++ ed'.1, ed'.2) := by
  rw [Database.apply]
  cases h : applyOp db op1 with
  | none => rfl
  | some ed =>
    simp only [Option.some_bind]
    rw [apply_single]

theorem scancode_as_idx_lt (sc : Scancode) (h : sc.code < 256) :
    sc.as_idx < 512 := by
  rw [Scancode.as_idx]
  split <;> omega

theorem applyOp_key_pressed_set (db : Database) (sc : Scancode)
    (h : db.keyboard[sc.as_idx]? = some true) :
    applyOp db (.KeyPressed sc) =
      some ([.KeyboardEvent { release := true, extended := sc.extended } sc.code,
             .KeyboardEvent { release := false, extended := sc.extended } sc.code],
        db) := by
  rw [applyOp, bitReplace_eq _ _ true true h,
    list_set_getElem_eq db.keyboard sc.as_idx true h]
  simp

theorem applyOp_key_pressed_clear (db : Database) (sc : Scancode)
    (h : db.keyboard[sc.as_idx]? = some false) :
    applyOp db (.KeyPressed sc) =
      some ([.KeyboardEvent { release := false, extended := sc.extended } sc.code],
        { db with keyboard := db.keyboard.set sc.as_idx true }) := by
  rw [applyOp, bitReplace_eq _ _ true false h]
  simp

theorem is_key_pressed_getElem (db : Database) (sc : Scancode)
    (hidx : sc.as_idx < db.keyboard.length) :
    db.keyboard[sc.as_idx]? = some (db.is_key_pressed sc) := by
  rw [Database.is_key_pressed, List.getElem?_eq_getElem hidx]
  simp

/-- Claim C6: a KeyPressed on an already-set bit emits a release then a
press for that scancode and leaves the state unchanged; on a clear bit it
sets the bit and emits a single press; emitted keyboard events carry the
scancode extended flag; hence two KeyPressed of the same unpressed key
yield three events in total. -/
theorem claim_C6_key_press (db : Database) (sc : Scancode)
    (hlen : db.keyboard.length = 512) (hcode : sc.code < 256) :
    (db.is_key_pressed sc = true →
      db.apply [.KeyPressed sc] =
        some ([.KeyboardEvent { release := true, extended := sc.extended } sc.code,
               .KeyboardEvent { release := false, extended := sc.extended } sc.code],
          db)) ∧
    (db.is_key_pressed sc = false →
      db.apply [.KeyPressed sc] =
        some ([.KeyboardEvent { release := false, extended := sc.extended } sc.code],
          { db with keyboard := db.keyboard.set sc.as_idx true }) ∧
      Database.is_key_pressed
        { db with keyboard := db.keyboard.set sc.as_idx true } sc = true) ∧
    (db.is_key_pressed sc = false →
      (db.apply [.KeyPressed sc, .KeyPressed sc]).map (fun ed => ed.1.length) =
        some 3) := by
  have hidx : sc.as_idx < db.keyboard.length := by
    rw [hlen]
    exact scancode_as_idx_lt sc hcode
  have hget := is_key_pressed_getElem db sc hidx
  have hset_get : (db.keyboard.set sc.as_idx true)[sc.as_idx]? = some true :=
    List.getElem?_set_eq_of_lt true hidx
  have hpressed_after : Database.is_key_pressed
      { db with keyboard := db.keyboard.set sc.as_idx true } sc = true := by
    rw [Database.is_key_pressed]
    simp only
    rw [hset_get]
    rfl
  refine ⟨?_, ?_, ?_⟩
  · intro h
    rw [apply_single, applyOp_key_pressed_set db sc (h ▸ hget)]
  · intro h
    exact ⟨by rw [apply_single, applyOp_key_pressed_clear db sc (h ▸ hget)],
      hpressed_after⟩
  · intro h
    rw [apply_pair, applyOp_key_pressed_clear db sc (h ▸ hget),
      Option.some_bind,
      applyOp_key_pressed_set _ sc hset_get]
    rfl

set_option maxRecDepth 8192 in
/-- Witness for C6 at the fresh database and scancode 30. -/
theorem claim_C6_key_press_witness :
    (Database.new.keyboard.length = 512 ∧ (30 : Nat) < 256 ∧
      Database.new.is_key_pressed ⟨30, false⟩ = false) ∧
    (Database.new.apply
        [.KeyPressed ⟨30, false⟩, .KeyPressed ⟨30, false⟩]).map
      (fun ed => ed.1.length) = some 3 :=
  ⟨⟨by simp [Database.new], by decide, by decide⟩,
    (claim_C6_key_press Database.new ⟨30, false⟩ (by simp [Database.new])
      (by decide)).2.2 (by decide)⟩

/-- The press event for a known mouse button: the shape picked by the fixed
mapping, with the down flag and current cursor coordinates. -/
def buttonPressEvent (pos : MousePosition) (b : MouseButton) : FastPathInputEvent :=
  match MouseButtonFlags.from b with
  | .Button flags => .MouseEvent
      { flags := PointerFlags.DOWN.union flags
        number_of_wheel_rotation_units := 0
        x_position := pos.x
        y_position := pos.y }
  | .Pointer flags => .MouseEventEx
      { flags := PointerXFlags.DOWN.union flags
        x_position := pos.x
        y_position := pos.y }

theorem button_as_idx_lt (b : MouseButton) (h : b.is_unknown = false) :
    b.as_idx < 5 := by
  rw [MouseButton.is_unknown] at h
  rw [MouseButton.as_idx]
  simp at h
  omega

theorem is_mouse_button_pressed_getElem (db : Database) (b : MouseButton)
    (hidx : b.as_idx < db.mouse_buttons.length) :
    db.mouse_buttons[b.as_idx]? = some (db.is_mouse_button_pressed b) := by
  rw [Database.is_mouse_button_pressed, List.getElem?_eq_getElem hidx]
  simp

theorem applyOp_button_pressed_set (db : Database) (b : MouseButton)
    (hk : b.is_unknown = false)
    (h : db.mouse_buttons[b.as_idx]? = some true) :
    applyOp db (.MouseButtonPressed b) = some ([], db) := by
  rw [applyOp]
  rw [if_neg (by simp [hk])]
  rw [bitReplace_eq _ _ true true h, list_set_getElem_eq _ _ _ h]
  simp

theorem applyOp_button_pressed_clear (db : Database) (b : MouseButton)
    (hk : b.is_unknown = false)
    (h : db.mouse_buttons[b.as_idx]? = some false) :
    applyOp db (.MouseButtonPressed b) =
      some ([buttonPressEvent db.mouse_position b],
        { db with mouse_buttons := db.mouse_buttons.set b.as_idx true }) := by
  rw [applyOp]
  rw [if_neg (by simp [hk])]
  rw [bitReplace_eq _ _ true false h]
  simp [buttonPressEvent]

theorem applyOp_button_released_set (db : Database) (b : MouseButton)
    (hk : b.is_unknown = false)
    (h : db.mouse_buttons[b.as_idx]? = some true) :
    applyOp db (.MouseButtonReleased b) =
      some ([releaseButtonEvent db.mouse_position b.as_idx],
        { db with mouse_buttons := db.mouse_buttons.set b.as_idx false }) := by
  rw [applyOp]
  rw [if_neg (by simp [hk])]
  rw [bitReplace_eq _ _ false true h]
  simp [releaseButtonEvent, MouseButton.as_idx]

theorem applyOp_button_released_clear (db : Database) (b : MouseButton)
    (hk : b.is_unknown = false)
    (h : db.mouse_buttons[b.as_idx]? = some false) :
    applyOp db (.MouseButtonReleased b) = some ([], db) := by
  rw [applyOp]
  rw [if_neg (by simp [hk])]
  rw [bitReplace_eq _ _ false false h, list_set_getElem_eq _ _ _ h]
  simp

/-- Claim C7: a press of a known button with the bit already set emits
nothing and changes nothing; with the bit clear it sets the bit and emits
one press event of the shape fixed per button with the down flag and the
current cursor; release is symmetric without the down flag; hence two
presses of LEFT emit exactly one event; and the button-to-shape mapping is
the fixed table. -/
theorem claim_C7_button_dedup (db : Database) (b : MouseButton)
    (hlen : db.mouse_buttons.length = 5) (hk : b.is_unknown = false) :
    (db.is_mouse_button_pressed b = true →
      db.apply [.MouseButtonPressed b] = some ([], db)) ∧
    (db.is_mouse_button_pressed b = false →
      db.apply [.MouseButtonPressed b] =
        some ([buttonPressEvent db.mouse_position b],
          { db with mouse_buttons := db.mouse_buttons.set b.as_idx true })) ∧
    (db.is_mouse_button_pressed b = true →
      db.apply [.MouseButtonReleased b] =
        some ([releaseButtonEvent db.mouse_position b.as_idx],
          { db with mouse_buttons := db.mouse_buttons.set b.as_idx false })) ∧
    (db.is_mouse_button_pressed b = false →
      db.apply [.MouseButtonReleased b] = some ([], db)) ∧
    (db.is_mouse_button_pressed b = false →
      (db.apply [.MouseButtonPressed b, .MouseButtonPressed b]).map
        (fun ed => ed.1.length) = some 1) ∧
    (MouseButtonFlags.from MouseButton.LEFT = .Button PointerFlags.LEFT_BUTTON ∧
      MouseButtonFlags.from MouseButton.MIDDLE =
        .Button PointerFlags.MIDDLE_BUTTON_OR_WHEEL ∧
      MouseButtonFlags.from MouseButton.RIGHT = .Button PointerFlags.RIGHT_BUTTON ∧
      MouseButtonFlags.from MouseButton.X1 = .Pointer PointerXFlags.BUTTON1 ∧
      MouseButtonFlags.from MouseButton.X2 = .Pointer PointerXFlags.BUTTON2) := by
  have hidx : b.as_idx < db.mouse_buttons.length := by
    rw [hlen]
    exact button_as_idx_lt b hk
  have hget := is_mouse_button_pressed_getElem db b hidx
  have hset_get : (db.mouse_buttons.set b.as_idx true)[b.as_idx]? = some true :=
    List.getElem?_set_eq_of_lt true hidx
  refine ⟨?_, ?_, ?_, ?_, ?_, by decide, by decide, by decide, by decide, by decide⟩
  · intro h
    rw [apply_single, applyOp_button_pressed_set db b hk (h ▸ hget)]
  · intro h
    rw [apply_single, applyOp_button_pressed_clear db b hk (h ▸ hget)]
  · intro h
    rw [apply_single, applyOp_button_released_set db b hk (h ▸ hget)]
  · intro h
    rw [apply_single, applyOp_button_released_clear db b hk (h ▸ hget)]
  · intro h
    rw [apply_pair, applyOp_button_pressed_clear db b hk (h ▸ hget),
      Option.some_bind]
    rw [applyOp_button_pressed_set _ b hk hset_get]
    rfl

set_option maxRecDepth 8192 in
/-- Witness for C7 at the fresh database and the LEFT button. -/
theorem claim_C7_button_dedup_witness :
    (Database.new.mouse_buttons.length = 5 ∧
      MouseButton.LEFT.is_unknown = false ∧
      Database.new.is_mouse_button_pressed MouseButton.LEFT = false) ∧
    (Database.new.apply
        [.MouseButtonPressed MouseButton.LEFT,
         .MouseButtonPressed MouseButton.LEFT]).map
      (fun ed => ed.1.length) = some 1 :=
  ⟨⟨by simp [Database.new], by decide, by decide⟩,
    (claim_C7_button_dedup Database.new MouseButton.LEFT
      (by simp [Database.new]) (by decide)).2.2.2.2.1 (by decide)⟩

/-- Claim C9: an operation naming an unknown mouse button (raw value above
4) is silently dropped: no event, no failure, and the database is returned
unchanged. -/
theorem claim_C9_unknown_ignored (db : Database) (b : MouseButton)
    (h : 4 < b.val) :
    db.apply [.MouseButtonPressed b] = some ([], db) ∧
    db.apply [.MouseButtonReleased b] = some ([], db) := by
  have hk : b.is_unknown = true := by
    rw [MouseButton.is_unknown]
    simpa using h
  constructor
  · rw [apply_single, applyOp, if_pos (by simp [hk])]
  · rw [apply_single, applyOp, if_pos (by simp [hk])]

/-- Witness for C9 at button value 5. -/
theorem claim_C9_unknown_ignored_witness :
    4 < (5 : Nat) ∧
    Database.new.apply [.MouseButtonPressed ⟨5⟩] = some ([], Database.new) ∧
    Database.new.apply [.MouseButtonReleased ⟨5⟩] = some ([], Database.new) :=
  have h9 := claim_C9_unknown_ignored Database.new ⟨5⟩ (by decide)
  ⟨by decide, h9.1, h9.2⟩

theorem applyOp_key_released_set (db : Database) (sc : Scancode)
    (h : db.keyboard[sc.as_idx]? = some true) :
    applyOp db (.KeyReleased sc) =
      some ([.KeyboardEvent { release := true, extended := sc.extended } sc.code],
        { db with keyboard := db.keyboard.set sc.as_idx false }) := by
  rw [applyOp, bitReplace_eq _ _ false true h]
  simp

theorem applyOp_key_released_clear (db : Database) (sc : Scancode)
    (h : db.keyboard[sc.as_idx]? = some false) :
    applyOp db (.KeyReleased sc) = some ([], db) := by
  rw [applyOp, bitReplace_eq _ _ false false h,
    list_set_getElem_eq db.keyboard sc.as_idx false h]
  simp

/-- An operation whose scancode codes are u8 values; mouse buttons need no
constraint (known buttons are in bounds, unknown ones are dropped). -/
def opWF : Operation → Prop
  | .KeyPressed sc => sc.code < 256
  | .KeyReleased sc => sc.code < 256
  | _ => True

theorem applyOp_total (db : Database) (op : Operation)
    (hk : db.keyboard.length = 512) (hm : db.mouse_buttons.length = 5)
    (hop : opWF op) :
    ∃ r, applyOp db op = some r ∧
      r.2.keyboard.length = 512 ∧ r.2.mouse_buttons.length = 5 := by
  cases op with
  | MouseButtonPressed b =>
    by_cases hu : b.is_unknown = true
    · exact ⟨([], db), by rw [applyOp, if_pos (by simp [hu])], hk, hm⟩
    · have hu' : b.is_unknown = false := by simpa using hu
      have hidx : b.as_idx < db.mouse_buttons.length := by
        rw [hm]
        exact button_as_idx_lt b hu'
      have hget := is_mouse_button_pressed_getElem db b hidx
      cases hp : db.is_mouse_button_pressed b with
      | true =>
        exact ⟨([], db), applyOp_button_pressed_set db b hu' (hp ▸ hget), hk, hm⟩
      | false =>
        refine ⟨([buttonPressEvent db.mouse_position b],
          { db with mouse_buttons := db.mouse_buttons.set b.as_idx true }),
          applyOp_button_pressed_clear db b hu' (hp ▸ hget), hk, ?_⟩
        simp [hm]
  | MouseButtonReleased b =>
    by_cases hu : b.is_unknown = true
    · exact ⟨([], db), by rw [applyOp, if_pos (by simp [hu])], hk, hm⟩
    · have hu' : b.is_unknown = false := by simpa using hu
      have hidx : b.as_idx < db.mouse_buttons.length := by
        rw [hm]
        exact button_as_idx_lt b hu'
      have hget := is_mouse_button_pressed_getElem db b hidx
      cases hp : db.is_mouse_button_pressed b with
      | true =>
        refine ⟨([releaseButtonEvent db.mouse_position b.as_idx],
          { db with mouse_buttons := db.mouse_buttons.set b.as_idx false }),
          applyOp_button_released_set db b hu' (hp ▸ hget), hk, ?_⟩
        simp [hm]
      | false =>
        exact ⟨([], db), applyOp_button_released_clear db b hu' (hp ▸ hget), hk, hm⟩
  | MouseMove position =>
    by_cases hpos : position = db.mouse_position
    · exact ⟨([], db), by rw [applyOp, if_neg (by simp [hpos])], hk, hm⟩
    · refine ⟨([FastPathInputEvent.MouseEvent
        { flags := PointerFlags.MOVE
          number_of_wheel_rotation_units := 0
          x_position := position.x
          y_position := position.y }],
        { db with mouse_position := position }), ?_, hk, hm⟩
      rw [applyOp, if_pos (by simpa using hpos)]
  | WheelRotations rotations => exact ⟨_, by rw [applyOp], hk, hm⟩
  | KeyPressed sc =>
    have hidx : sc.as_idx < db.keyboard.length := by
      rw [hk]
      exact scancode_as_idx_lt sc hop
    have hget := is_key_pressed_getElem db sc hidx
    cases hp : db.is_key_pressed sc with
    | true =>
      exact ⟨_, applyOp_key_pressed_set db sc (hp ▸ hget), hk, hm⟩
    | false =>
      refine ⟨([.KeyboardEvent { release := false, extended := sc.extended } sc.code],
        { db with keyboard := db.keyboard.set sc.as_idx true }),
        applyOp_key_pressed_clear db sc (hp ▸ hget), ?_, hm⟩
      simp [hk]
  | KeyReleased sc =>
    have hidx : sc.as_idx < db.keyboard.length := by
      rw [hk]
      exact scancode_as_idx_lt sc hop
    have hget := is_key_pressed_getElem db sc hidx
    cases hp : db.is_key_pressed sc with
    | true =>
      refine ⟨([.KeyboardEvent { release := true, extended := sc.extended } sc.code],
        { db with keyboard := db.keyboard.set sc.as_idx false }),
        applyOp_key_released_set db sc (hp ▸ hget), ?_, hm⟩
      simp [hk]
    | false =>
      exact ⟨([], db), applyOp_key_released_clear db sc (hp ▸ hget), hk, hm⟩

theorem apply_total (ops : List Operation) : ∀ (db : Database),
    db.keyboard.length = 512 → db.mouse_buttons.length = 5 →
    (∀ op ∈ ops, opWF op) → (Database.apply db ops).isSome = true := by
  induction ops with
  | nil => intro db _ _ _; rfl
  | cons op rest ih =>
    intro db hk hm hops
    obtain ⟨r, hr, hk', hm'⟩ :=
      applyOp_total db op hk hm (hops op (by simp))
    rw [Database.apply, hr, Option.some_bind]
    have := ih r.2 hk' hm' (fun o ho => hops o (by simp [ho]))
    cases happ : Database.apply r.2 rest with
    | none => rw [happ] at this; simp at this
    | some ed => simp [happ]

/-- Claim C10: flattened scancode indices stay below 512 and known-button
indices below 5, so apply is total (never fails on a bitset access) on the
511-indexed keyboard and 5-slot button state, and the read accessors
return false instead of failing for out-of-range indices. -/
theorem claim_C10_in_bounds (db : Database) (ops : List Operation)
    (sc : Scancode) (b : MouseButton)
    (hcode : sc.code < 256) (hb : b.is_unknown = false)
    (hk : db.keyboard.length = 512) (hm : db.mouse_buttons.length = 5)
    (hops : ∀ op ∈ ops, opWF op) :
    sc.as_idx < 512 ∧ b.as_idx < 5 ∧
    (Database.apply db ops).isSome = true ∧
    (∀ (db2 : Database) (sc2 : Scancode), db2.keyboard.length ≤ sc2.as_idx →
      db2.is_key_pressed sc2 = false) ∧
    (∀ (db2 : Database) (b2 : MouseButton),
      db2.mouse_buttons.length ≤ b2.as_idx →
      db2.is_mouse_button_pressed b2 = false) := by
  refine ⟨scancode_as_idx_lt sc hcode, button_as_idx_lt b hb,
    apply_total ops db hk hm hops, ?_, ?_⟩
  · intro db2 sc2 hge
    rw [Database.is_key_pressed, List.getElem?_eq_none hge]
    rfl
  · intro db2 b2 hge
    rw [Database.is_mouse_button_pressed, List.getElem?_eq_none hge]
    rfl

set_option maxRecDepth 8192 in
/-- Witness for C10 at the fresh database and a three-operation
transaction. -/
theorem claim_C10_in_bounds_witness :
    ((255 : Nat) < 256 ∧ MouseButton.X2.is_unknown = false ∧
      Database.new.keyboard.length = 512 ∧
      Database.new.mouse_buttons.length = 5) ∧
    (Scancode.mk 255 true).as_idx < 512 ∧ MouseButton.X2.as_idx < 5 ∧
    (Database.apply Database.new
      [.KeyPressed ⟨30, false⟩, .MouseButtonPressed MouseButton.LEFT,
       .MouseMove ⟨3, 4⟩]).isSome = true :=
  have h10 := claim_C10_in_bounds Database.new
    [.KeyPressed ⟨30, false⟩, .MouseButtonPressed MouseButton.LEFT,
     .MouseMove ⟨3, 4⟩]
    ⟨255, true⟩ MouseButton.X2 (by decide) (by decide)
    (by simp [Database.new]) (by simp [Database.new])
    (by intro op hop; fin_cases hop <;> simp [opWF])
  ⟨⟨by decide, by decide, by simp [Database.new], by simp [Database.new]⟩,
    h10.1, h10.2.1, h10.2.2.1⟩

/-- The modelled decoder reproduces the request sample from the bytes
recorded in the source test module, the concrete vector of spec section 8. -/
theorem from_der_request_vector : fromDer REQUEST_DER = .ok requestSample := by
  decide

/-- The modelled decoder reproduces the success-response sample from its
recorded bytes. -/
theorem from_der_response_vector :
    fromDer RESPONSE_SUCCESS_DER = .ok responseSuccessSample := by
  decide
